import Mathlib

/-!
The bit utilities, the data frame header layout, the client entry points and the cluster
snapshot taker of aeron-go.

A shallow embedding of `aeron/util/bits.go`, of the constants of
`aeron/logbuffer/DataFrameHeader.go`, of `aeron/aeron.go`, of `cluster/snapshot_taker.go`
and of `MakeClusterMessageBuffer` in `cluster/codecs/encoders.go`, with the properties
proved about them.  Code that calls on collaborators outside these files takes them as
parameters and records the calls it makes.

Machine integers are carried as `Nat` bit patterns (unsigned types) or as `Int`
values (signed types); every place where Go arithmetic wraps is written with an
explicit reduction modulo `2 ^ w`.
-/

namespace Aeron.Util

/-! ## Machine integers -/

/-- The `int32` value of a 32-bit pattern (two's complement). -/
def asInt32 (n : Nat) : Int :=
  if n % 2 ^ 32 < 2 ^ 31 then ((n % 2 ^ 32 : Nat) : Int) else ((n % 2 ^ 32 : Nat) : Int) - 2 ^ 32

/-- The 32-bit pattern of an integer: the `int32`/`uint32` conversion, which wraps. -/
def ofInt32 (x : Int) : Nat := (x % 2 ^ 32).toNat

/-- The `int64` value of a 64-bit pattern (two's complement). -/
def asInt64 (n : Nat) : Int :=
  if n % 2 ^ 64 < 2 ^ 63 then ((n % 2 ^ 64 : Nat) : Int) else ((n % 2 ^ 64 : Nat) : Int) - 2 ^ 64

/-- The 64-bit pattern of an integer: the `int64`/`uint64` conversion, which wraps. -/
def ofInt64 (x : Int) : Nat := (x % 2 ^ 64).toNat

/-- Membership in the `int32` range. -/
def isInt32 (x : Int) : Prop := -2 ^ 31 ≤ x ∧ x < 2 ^ 31

/-- Membership in the `int64` range. -/
def isInt64 (x : Int) : Prop := -2 ^ 63 ≤ x ∧ x < 2 ^ 63

/-! ## `bits.go` -/

/-- `AlignInt32(value, alignment) = (value + (alignment - 1)) & ^(alignment - 1)` on `int32`:
the sum wraps, `^` is the bitwise complement of the 32-bit pattern. -/
def AlignInt32 (value alignment : Int) : Int :=
  asInt32 (ofInt32 (value + (alignment - 1)) &&& (ofInt32 (alignment - 1) ^^^ 0xFFFFFFFF))

/-- The de Bruijn lookup table of `NumberOfTrailingZeroes`. -/
def NumberOfTrailingZeroes_table : List Nat :=
  [0, 1, 2, 24, 3, 19, 6, 25,
   22, 4, 20, 10, 16, 7, 12, 26,
   31, 23, 18, 5, 21, 9, 15, 11,
   30, 17, 8, 14, 29, 13, 28, 27]

/-- The index `((value & -value) * 0x04D7651F) >> 27` computed on `uint32`. -/
def NumberOfTrailingZeroes_index (value : Nat) : Nat :=
  (((value &&& ((2 ^ 32 - value) % 2 ^ 32)) * 0x04D7651F) % 2 ^ 32) >>> 27

/-- `NumberOfTrailingZeroes(value)` for a `uint32` pattern `value`; `none` stands for the
run-time panic of an out-of-range table index. -/
def NumberOfTrailingZeroes (value : Nat) : Option Nat :=
  if value = 0 then some 32
  else NumberOfTrailingZeroes_table[NumberOfTrailingZeroes_index value]?

/-- The product `uint64(low) * 0xAAAAAAAB` of `FastMod3` before any reduction modulo `2 ^ 64`. -/
def FastMod3_product (value : Nat) : Nat := (value % 2 ^ 32) * 0xAAAAAAAB

/-- `FastMod3(value)` for a `uint64` pattern `value`. -/
def FastMod3 (value : Nat) : Int :=
  let low := value % 2 ^ 32
  let div3 := ((FastMod3_product value % 2 ^ 64) >>> 33) % 2 ^ 32
  asInt32 ((low + 2 ^ 32 - (div3 * 3) % 2 ^ 32) % 2 ^ 32)

/-- `IsPowerOfTwo(value) = value > 0 && ((value & (^value + 1)) == value)` on `int64`. -/
def IsPowerOfTwo (value : Int) : Bool :=
  decide (value > 0) &&
    (asInt64 (ofInt64 value &&& ofInt64 (asInt64 (ofInt64 value ^^^ 0xFFFFFFFFFFFFFFFF) + 1))
      == value)

/-! ### `Memcpy`

The two regions are disjoint, so each is a map from the byte offset (relative to its base
pointer) to the byte held there, and a store into the destination leaves the source as it
is.  A load or store of a `w`-byte word at offset `i` touches the bytes `i, ..., i + w - 1`
of the region.  The loop counter `i` starts at `0` and only grows while it is below a limit
that is at most `length`, so the `int32` counter never wraps and `uintptr(i)` is `i`. -/

/-- The state of a running `Memcpy`: destination bytes, loop counter, and the word accesses
made so far as `(offset, width)` pairs, the latest first. -/
structure CopyState where
  dest : Nat → Nat
  i : Nat
  accesses : List (Nat × Nat)

/-- The step `*(*T)(dest + i) = *(*T)(src + i)` for a type `T` of `w` bytes. -/
def copyWord (w : Nat) (src : Nat → Nat) (st : CopyState) : CopyState :=
  { dest := fun j => if st.i ≤ j ∧ j < st.i + w then src j else st.dest j
    i := st.i
    accesses := (st.i, w) :: st.accesses }

/-- The loop `for ; i < i8; i += 8` copying a `uint64`. -/
def Memcpy_loop8 (src : Nat → Nat) (i8 : Int) (st : CopyState) : CopyState :=
  if (st.i : Int) < i8 then
    Memcpy_loop8 src i8 { copyWord 8 src st with i := st.i + 8 }
  else st
termination_by (i8 - st.i).toNat
decreasing_by simp_wf; omega

/-- The loop `for ; i < i4; i += 4` copying a `uint32`. -/
def Memcpy_loop4 (src : Nat → Nat) (i4 : Int) (st : CopyState) : CopyState :=
  if (st.i : Int) < i4 then
    Memcpy_loop4 src i4 { copyWord 4 src st with i := st.i + 4 }
  else st
termination_by (i4 - st.i).toNat
decreasing_by simp_wf; omega

/-- The loop `for ; i < length; i++` copying an `int8`. -/
def Memcpy_loop1 (src : Nat → Nat) (length : Int) (st : CopyState) : CopyState :=
  if (st.i : Int) < length then
    Memcpy_loop1 src length { copyWord 1 src st with i := st.i + 1 }
  else st
termination_by (length - st.i).toNat
decreasing_by simp_wf; omega

/-- The state after the 8-byte batch loop of `Memcpy`, with `i8 := length >> 3`. -/
def Memcpy_after8 (dest src : Nat → Nat) (length : Int) : CopyState :=
  Memcpy_loop8 src (length >>> (3 : Nat)) { dest := dest, i := 0, accesses := [] }

/-- The state after the 4-byte batch loop of `Memcpy`, with `i4 := (length - i) >> 2`. -/
def Memcpy_after4 (dest src : Nat → Nat) (length : Int) : CopyState :=
  let st := Memcpy_after8 dest src length
  Memcpy_loop4 src ((length - st.i) >>> (2 : Nat)) st

/-- `Memcpy(dest, src, length)`: the final state, after the remainder loop. -/
def Memcpy (dest src : Nat → Nat) (length : Int) : CopyState :=
  Memcpy_loop1 src length (Memcpy_after4 dest src length)

/-- The number of bytes that `Memcpy` copies one at a time, in its remainder loop: the
accesses of width 1 among those it makes. -/
def Memcpy_bytewise (dest src : Nat → Nat) (length : Int) : Nat :=
  ((Memcpy dest src length).accesses.filter (fun a => a.2 == 1)).length

/-- The invariant of the three copy loops for a copy of `length` bytes out of `src` into a
region that held `dest0`: the counter is within the length, the bytes below the counter are
copied, the bytes from the counter on are untouched, and every access made so far ends
within the first `length` bytes. -/
def CopyInv (dest0 src : Nat → Nat) (length : Int) (st : CopyState) : Prop :=
  (st.i : Int) ≤ length ∧ (∀ j, j < st.i → st.dest j = src j) ∧
    (∀ j, st.i ≤ j → st.dest j = dest0 j) ∧
    ∀ a ∈ st.accesses, ((a.1 + a.2 : Nat) : Int) ≤ length

/-! ### Bit counts in the words of the specification -/

/-- The number of trailing zero bits of `value` among its lowest `bits` bits: the bits are
inspected from bit 0 upwards until a set bit is found. -/
def countTrailingZeros : Nat → Nat → Nat
  | 0, _ => 0
  | bits + 1, value => if value % 2 = 1 then 0 else countTrailingZeros bits (value / 2) + 1

/-- The number of leading zero bits of `value` seen as a word of `bits` bits: the bits are
inspected from bit `bits - 1` downwards until a set bit is found. -/
def countLeadingZeros : Nat → Nat → Nat
  | 0, _ => 0
  | bits + 1, value => if value.testBit bits then 0 else countLeadingZeros bits value + 1

end Aeron.Util

namespace Aeron.Logbuffer

/-! ## `DataFrameHeader.go` -/

def DataFrameHeader_FrameLengthFieldOffset : Int := 0
def DataFrameHeader_VersionFieldOffset : Int := 4
def DataFrameHeader_FlagsFieldOffset : Int := 5
def DataFrameHeader_TypeFieldOffset : Int := 6
def DataFrameHeader_TermOffsetFieldOffset : Int := 8
def DataFrameHeader_SessionIDFieldOffset : Int := 12
def DataFrameHeader_StreamIDFieldOffset : Int := 16
def DataFrameHeader_TermIDFieldOffset : Int := 20
def DataFrameHeader_ReservedValueFieldOffset : Int := 24
def DataFrameHeader_DataOffset : Int := 32

def DataFrameHeader_Length : Int := 32

def DataFrameHeader_TypePad : Nat := 0x00
def DataFrameHeader_TypeData : Nat := 0x01
def DataFrameHeader_TypeNAK : Nat := 0x02
def DataFrameHeader_TypeSM : Nat := 0x03
def DataFrameHeader_TypeErr : Nat := 0x04
def DataFrameHeader_TypeSetup : Nat := 0x05
def DataFrameHeader_TypeExt : Nat := 0xFFFF

/-- Modelled from the spec: the widths in bytes of the header fields (`int32`, `int8`, `int8`,
`int16`, four `int32`, `int64`); the source declares the offsets only.  Each entry pairs
the offset constant of a field with its width. -/
def DataFrameHeader_fields : List (Int × Int) :=
  [ (DataFrameHeader_FrameLengthFieldOffset, 4),
    (DataFrameHeader_VersionFieldOffset, 1),
    (DataFrameHeader_FlagsFieldOffset, 1),
    (DataFrameHeader_TypeFieldOffset, 2),
    (DataFrameHeader_TermOffsetFieldOffset, 4),
    (DataFrameHeader_SessionIDFieldOffset, 4),
    (DataFrameHeader_StreamIDFieldOffset, 4),
    (DataFrameHeader_TermIDFieldOffset, 4),
    (DataFrameHeader_ReservedValueFieldOffset, 8) ]

/-- Modelled from the spec: `FRAME_ALIGNMENT`, 32 bytes; its declaration is not among the
sources. -/
def FrameAlignment : Int := 32

/-- The frame type constants, in the order of their declaration. -/
def DataFrameHeader_types : List Nat :=
  [ DataFrameHeader_TypePad, DataFrameHeader_TypeData, DataFrameHeader_TypeNAK,
    DataFrameHeader_TypeSM, DataFrameHeader_TypeErr, DataFrameHeader_TypeSetup,
    DataFrameHeader_TypeExt ]

end Aeron.Logbuffer

namespace Aeron.Client

/-! ## `aeron.go`

The client conductor, the idle strategy, the error handlers and the CnC file are
collaborators of `aeron.go`: the conductor is a parameter, and each operation yields, next to
its result, the calls it made on its collaborators in the order it made them.  The conductor
runs on its own thread, so the state it is in when it is called is given by a schedule:
`state k` is the conductor state met by the `k`-th conductor call of the operation. -/

/-- A call made by an operation of `aeron.go` on one of its collaborators. -/
inductive Call (Pub Sub Err : Type) where
  | addPublication (channel : String) (streamID : Int)
  | addExclusivePublication (channel : String) (streamID : Int)
  | addSubscription (channel : String) (streamID : Int)
  | findPublication (registrationID : Int)
  | findSubscription (registrationID : Int)
  | idle (workCount : Int)
  | onError (err : Err)
  | errorHandler (err : Err)
  | conductorClose
  | cncFileClose
  | sendPublication (publication : Option Pub)
  | sendSubscription (subscription : Option Sub)
  | closeChannel

/-- Whether a call is a call of `idleStrategy.Idle`. -/
def Call.isIdle {Pub Sub Err : Type} : Call Pub Sub Err → Bool
  | Call.idle _ => true
  | _ => false

/-- Whether a call is a call of the conductor's `onError`. -/
def Call.isOnError {Pub Sub Err : Type} : Call Pub Sub Err → Bool
  | Call.onError _ => true
  | _ => false

/-- Whether a call sends a value on the returned channel. -/
def Call.isSend {Pub Sub Err : Type} : Call Pub Sub Err → Bool
  | Call.sendPublication _ => true
  | Call.sendSubscription _ => true
  | _ => false

/-- The methods of `ClientConductor` that `aeron.go` calls, as functions of the conductor
state; a result pair holds `nil` as `none`. -/
structure ClientConductor (σ Pub Sub Err : Type) where
  AddPublication : σ → String → Int → Int × Option Err
  AddExclusivePublication : σ → String → Int → Int × Option Err
  AddSubscription : σ → String → Int → Int × Option Err
  FindPublication : σ → Int → Option Pub × Option Err
  FindSubscription : σ → Int → Option Sub × Option Err
  Close : σ → Option Err

/-- The `Aeron` client: its conductor with the schedule of conductor states, and the result
of `cncFile.Close()`. -/
structure Aeron (σ Pub Sub Err : Type) where
  conductor : ClientConductor σ Pub Sub Err
  state : Nat → σ
  cncFileClose : Option Err

/-- The calls `f err` when `err != nil`, none otherwise: `if err != nil { f(err) }`. -/
def reportIf {Pub Sub Err : Type} (err : Option Err) (f : Err → Call Pub Sub Err) :
    List (Call Pub Sub Err) :=
  match err with
  | some e => [f e]
  | none => []

/-- The loop `for { x, err := Find(id); if x != nil || err != nil { return x, err };
idleStrategy.Idle(0) }` shared, as text, by the `Add*` operations: `find k` is the result of
the `k`-th probe, `probe` the call it makes, `calls` the calls made before.  The loop has no
exit but the return, so it is run for at most `fuel` probes; `none` means it is still
spinning after them. -/
def awaitFind {α Pub Sub Err : Type} (find : Nat → Option α × Option Err)
    (probe : Call Pub Sub Err) :
    Nat → Nat → List (Call Pub Sub Err) → Option ((Option α × Option Err) × List (Call Pub Sub Err))
  | 0, _, _ => none
  | fuel + 1, k, calls =>
    if (find k).1.isSome || (find k).2.isSome then some (find k, calls ++ [probe])
    else awaitFind find probe fuel (k + 1) (calls ++ [probe, Call.idle 0])

/-- The calls of `n` unresolved rounds of the loop: `n` times a probe followed by `Idle(0)`. -/
def spins {Pub Sub Err : Type} (probe : Call Pub Sub Err) : Nat → List (Call Pub Sub Err)
  | 0 => []
  | n + 1 => [probe, Call.idle 0] ++ spins probe n

/-- `Aeron.Close`. -/
def Close {σ Pub Sub Err : Type} (aeron : Aeron σ Pub Sub Err) :
    Option Err × List (Call Pub Sub Err) :=
  let err := aeron.conductor.Close (aeron.state 0)
  let calls := [Call.conductorClose] ++ reportIf err Call.errorHandler
  let err := aeron.cncFileClose
  (err, calls ++ [Call.cncFileClose] ++ reportIf err Call.errorHandler)

/-- `Aeron.AddSubscription`. -/
def AddSubscription {σ Pub Sub Err : Type} (aeron : Aeron σ Pub Sub Err) (fuel : Nat)
    (channel : String) (streamID : Int) :
    Option ((Option Sub × Option Err) × List (Call Pub Sub Err)) :=
  let r := aeron.conductor.AddSubscription (aeron.state 0) channel streamID
  match r.2 with
  | some err => some ((none, some err), [Call.addSubscription channel streamID])
  | none =>
    awaitFind (fun k => aeron.conductor.FindSubscription (aeron.state (k + 1)) r.1)
      (Call.findSubscription r.1) fuel 0 [Call.addSubscription channel streamID]

/-- `Aeron.AddSubscriptionDeprecated`: the calls made by the function and by the goroutine
it starts, which runs after the function's own `onError`; the value received from the
returned channel is the one sent. -/
def AddSubscriptionDeprecated {σ Pub Sub Err : Type} (aeron : Aeron σ Pub Sub Err) (fuel : Nat)
    (channel : String) (streamID : Int) : Option (List (Call Pub Sub Err)) :=
  let r := aeron.conductor.AddSubscription (aeron.state 0) channel streamID
  match awaitFind (fun k => aeron.conductor.FindSubscription (aeron.state (k + 1)) r.1)
      (Call.findSubscription r.1) fuel 0
      ([Call.addSubscription channel streamID] ++ reportIf r.2 Call.onError) with
  | none => none
  | some (found, calls) =>
    some (calls ++ reportIf found.2 Call.onError ++
      [Call.sendSubscription found.1, Call.closeChannel])

/-- `Aeron.GetSubscription`. -/
def GetSubscription {σ Pub Sub Err : Type} (aeron : Aeron σ Pub Sub Err)
    (registrationID : Int) : Option Sub × Option Err :=
  aeron.conductor.FindSubscription (aeron.state 0) registrationID

/-- `Aeron.AddPublicationDeprecated`, see `AddSubscriptionDeprecated`. -/
def AddPublicationDeprecated {σ Pub Sub Err : Type} (aeron : Aeron σ Pub Sub Err) (fuel : Nat)
    (channel : String) (streamID : Int) : Option (List (Call Pub Sub Err)) :=
  let r := aeron.conductor.AddPublication (aeron.state 0) channel streamID
  match awaitFind (fun k => aeron.conductor.FindPublication (aeron.state (k + 1)) r.1)
      (Call.findPublication r.1) fuel 0
      ([Call.addPublication channel streamID] ++ reportIf r.2 Call.onError) with
  | none => none
  | some (found, calls) =>
    some (calls ++ reportIf found.2 Call.onError ++
      [Call.sendPublication found.1, Call.closeChannel])

/-- `Aeron.AddPublication`. -/
def AddPublication {σ Pub Sub Err : Type} (aeron : Aeron σ Pub Sub Err) (fuel : Nat)
    (channel : String) (streamID : Int) :
    Option ((Option Pub × Option Err) × List (Call Pub Sub Err)) :=
  let r := aeron.conductor.AddPublication (aeron.state 0) channel streamID
  match r.2 with
  | some err => some ((none, some err), [Call.addPublication channel streamID])
  | none =>
    awaitFind (fun k => aeron.conductor.FindPublication (aeron.state (k + 1)) r.1)
      (Call.findPublication r.1) fuel 0 [Call.addPublication channel streamID]

/-- `Aeron.GetPublication`. -/
def GetPublication {σ Pub Sub Err : Type} (aeron : Aeron σ Pub Sub Err)
    (registrationID : Int) : Option Pub × Option Err :=
  aeron.conductor.FindPublication (aeron.state 0) registrationID

/-- `Aeron.AddExclusivePublication`. -/
def AddExclusivePublication {σ Pub Sub Err : Type} (aeron : Aeron σ Pub Sub Err) (fuel : Nat)
    (channel : String) (streamID : Int) :
    Option ((Option Pub × Option Err) × List (Call Pub Sub Err)) :=
  let r := aeron.conductor.AddExclusivePublication (aeron.state 0) channel streamID
  match r.2 with
  | some err => some ((none, some err), [Call.addExclusivePublication channel streamID])
  | none =>
    awaitFind (fun k => aeron.conductor.FindPublication (aeron.state (k + 1)) r.1)
      (Call.findPublication r.1) fuel 0 [Call.addExclusivePublication channel streamID]

/-- `Aeron.AddExclusivePublicationDeprecated`, see `AddSubscriptionDeprecated`. -/
def AddExclusivePublicationDeprecated {σ Pub Sub Err : Type} (aeron : Aeron σ Pub Sub Err)
    (fuel : Nat) (channel : String) (streamID : Int) : Option (List (Call Pub Sub Err)) :=
  let r := aeron.conductor.AddExclusivePublication (aeron.state 0) channel streamID
  match awaitFind (fun k => aeron.conductor.FindPublication (aeron.state (k + 1)) r.1)
      (Call.findPublication r.1) fuel 0
      ([Call.addExclusivePublication channel streamID] ++ reportIf r.2 Call.onError) with
  | none => none
  | some (found, calls) =>
    some (calls ++ reportIf found.2 Call.onError ++
      [Call.sendPublication found.1, Call.closeChannel])

/-- `Aeron.GetExclusivePublication`. -/
def GetExclusivePublication {σ Pub Sub Err : Type} (aeron : Aeron σ Pub Sub Err)
    (registrationID : Int) : Option Pub × Option Err :=
  aeron.conductor.FindPublication (aeron.state 0) registrationID

/-- The probes `find 0, find 1, ...` return `(nil, nil)` exactly `n` times and then the result
`(x, err)`, which is resolved: `x != nil || err != nil`. -/
def ResolvesAfter {α Err : Type} (find : Nat → Option α × Option Err) (n : Nat)
    (x : Option α) (err : Option Err) : Prop :=
  (∀ j, j < n → find j = (none, none)) ∧ find n = (x, err) ∧ (x.isSome ∨ err.isSome)

/-- A conductor for worked examples: the add calls hand out the registration ids 7, 8 and 9,
unless the channel is empty, which is refused; a registration is pending while the conductor
state is below 3, then resolves to the object `100 + id`, except that id 0 resolves to an
error. -/
def demoConductor : ClientConductor Nat Nat Nat String where
  AddPublication := fun _ channel _ => if channel = "" then (0, some "invalid channel") else (7, none)
  AddExclusivePublication := fun _ channel _ =>
    if channel = "" then (0, some "invalid channel") else (8, none)
  AddSubscription := fun _ channel _ => if channel = "" then (0, some "invalid channel") else (9, none)
  FindPublication := fun s id =>
    if s < 3 then (none, none) else if id = 0 then (none, some "unknown registration")
    else (some (100 + id.toNat), none)
  FindSubscription := fun s id =>
    if s < 3 then (none, none) else if id = 0 then (none, some "unknown registration")
    else (some (100 + id.toNat), none)
  Close := fun _ => some "conductor already closed"

/-- A client for worked examples: the `k`-th conductor call meets the conductor state `k`. -/
def demoAeron : Aeron Nat Nat Nat String where
  conductor := demoConductor
  state := fun k => k
  cncFileClose := none


/-! ## `Subscription.Poll` -/

/-- Modelled from the spec: a `Subscription`, whose source is not among the files, reduced to
what `Poll` uses: its images, each given by the fragment count that its own `Poll` returns
for the fragment limit it is offered (the fragment handler does not bear on the count), and
the round-robin index. -/
structure Subscription where
  images : List (Int → Int)
  roundRobinIndex : Nat

/-- Modelled from the spec: the pass of `Subscription.Poll` over the images in the order
given, "each image polls up to remaining limit; accumulate count". -/
def pollImages : List (Int → Int) → Int → Int → Int
  | [], _, fragmentsRead => fragmentsRead
  | image :: rest, fragmentLimit, fragmentsRead =>
    pollImages rest fragmentLimit (fragmentsRead + image (fragmentLimit - fragmentsRead))

/-- Modelled from the spec: `Subscription.Poll(handler, fragmentLimit)`, "iterate images in
round-robin order starting from `roundRobinIndex`; each image polls up to remaining limit;
accumulate count; update `roundRobinIndex = (start+1) mod n`".  The result is the count
and the subscription with its new index. -/
def Subscription.Poll (sub : Subscription) (fragmentLimit : Int) : Int × Subscription :=
  (pollImages (sub.images.rotate sub.roundRobinIndex) fragmentLimit 0,
    { sub with roundRobinIndex := (sub.roundRobinIndex + 1) % sub.images.length })

end Aeron.Client

namespace Cluster

/-! ## `snapshot_taker.go`

The publication, the clock and the idle strategy are collaborators: `Offer k bytes` is the
result of the `k`-th call of `publication.Offer`, and `since k` the value of
`time.Since(start)` at the `k`-th evaluation of the loop condition, a duration of the
monotonic clock and so not negative. -/

/-- Modelled from the spec: the sentinel `NOT_CONNECTED` of `Publication.Offer`, declared in
package `aeron` outside the sources at hand. -/
def NotConnected : Int := -1

/-- Modelled from the spec: the sentinel `BACK_PRESSURED`. -/
def BackPressured : Int := -2

/-- Modelled from the spec: the sentinel `ADMIN_ACTION`. -/
def AdminAction : Int := -3

/-- Modelled from the spec: the sentinel `CLOSED`. -/
def Closed : Int := -4

/-- Modelled from the spec: the sentinel `MAX_POSITION_EXCEEDED`. -/
def MaxPositionExceeded : Int := -5

/-- A call made by `snapshotTaker.offer` on the publication or on the idle strategy. -/
inductive Call where
  | offer (bytes : List Nat)
  | idle (workCount : Int)

/-- The `snapshotTaker` with what `offer` reads of it and of its surroundings. -/
structure snapshotTaker where
  Timeout : Int
  since : Nat → Nat
  Offer : Nat → List Nat → Int

/-- The cases `aeron.NotConnected, aeron.BackPressured, aeron.AdminAction` of the switch. -/
def retryOn (ret : Int) : Bool :=
  ret == NotConnected || ret == BackPressured || ret == AdminAction

/-- The loop of `snapshotTaker.offer`, run for at most `fuel` evaluations of its condition
(`none`: still looping after them); `k` counts the rounds done, `ret` is the variable of
that name, `calls` the calls made so far. -/
def offerLoop (st : snapshotTaker) (bytes : List Nat) :
    Nat → Nat → Int → List Call → Option (Int × List Call)
  | 0, _, _, _ => none
  | fuel + 1, k, ret, calls =>
    if (st.since k : Int) < st.Timeout then
      if retryOn (st.Offer k bytes) then
        offerLoop st bytes fuel (k + 1) (st.Offer k bytes)
          (calls ++ [Call.offer bytes, Call.idle 0])
      else some (st.Offer k bytes, calls ++ [Call.offer bytes])
    else some (ret, calls)

/-- `snapshotTaker.offer`: `var ret int64` starts at zero. -/
def offer (st : snapshotTaker) (fuel : Nat) (bytes : List Nat) : Option (Int × List Call) :=
  offerLoop st bytes fuel 0 0 []

/-- The calls of `n` retried rounds: `n` times an `Offer` followed by `Idle(0)`. -/
def retries (bytes : List Nat) : Nat → List Call
  | 0 => []
  | n + 1 => [Call.offer bytes, Call.idle 0] ++ retries bytes n

/-- The errors returned by `markSnapshot` and `snapshotSession`: the error of the encoder,
or `fmt.Errorf("snapshotTaker.offer failed: %d", ret)`. -/
inductive SnapshotError (Err : Type) where
  | encode (err : Err)
  | offerFailed (ret : Int)

/-- `snapshotTaker.markSnapshot`, given the result `packet` of
`codecs.SnapshotMarkerPacket` (its encoders are generated code outside the sources at
hand); the result is the error returned (`none` for `nil`) and the calls made. -/
def markSnapshot {Err : Type} (st : snapshotTaker) (fuel : Nat)
    (packet : Except Err (List Nat)) : Option (Option (SnapshotError Err) × List Call) :=
  match packet with
  | Except.error err => some (some (SnapshotError.encode err), [])
  | Except.ok bytes =>
    match offer st fuel bytes with
    | none => none
    | some (ret, calls) =>
      if ret < 0 then some (some (SnapshotError.offerFailed ret), calls) else some (none, calls)

/-- `snapshotTaker.snapshotSession`, given the result `packet` of
`codecs.ClientSessionPacket`. -/
def snapshotSession {Err : Type} (st : snapshotTaker) (fuel : Nat)
    (packet : Except Err (List Nat)) : Option (Option (SnapshotError Err) × List Call) :=
  match packet with
  | Except.error err => some (some (SnapshotError.encode err), [])
  | Except.ok bytes =>
    match offer st fuel bytes with
    | none => none
    | some (ret, calls) =>
      if ret < 0 then some (some (SnapshotError.offerFailed ret), calls) else some (none, calls)

/-- A snapshot taker for worked examples: a timeout of 10 clock units, a clock that advances
by one unit per round, and a publication that is back-pressured twice and then accepts the
packet at position 64. -/
def demoTaker : snapshotTaker where
  Timeout := 10
  since := fun k => k
  Offer := fun k _ => if k < 2 then BackPressured else 64

end Cluster

namespace Cluster.Codecs

/-! ## `encoders.go` -/

/-- Modelled from the spec: `atomic.Buffer.PutUInt16(offset, value)` on the bytes of the
buffer, whose source is not among the files: the offset is bounds-checked (`none` when the
two bytes do not lie within the capacity) and the value is stored little-endian. -/
def PutUInt16 (buf : List Nat) (offset value : Nat) : Option (List Nat) :=
  if offset + 2 ≤ buf.length then
    some ((buf.set offset (value % 256)).set (offset + 1) (value / 256 % 256))
  else none

/-- The length `8+blockLength` of the slice made by `MakeClusterMessageBuffer`: the sum is
computed in `uint16`, the type of `blockLength`. -/
def MakeClusterMessageBuffer_capacity (blockLength : Nat) : Nat := (8 + blockLength) % 2 ^ 16

/-- `MakeClusterMessageBuffer(templateId, blockLength)`: the bytes of the buffer returned, or
`none` when a header write fails its bounds check. -/
def MakeClusterMessageBuffer (templateId blockLength : Nat) : Option (List Nat) := do
  let buf := List.replicate (MakeClusterMessageBuffer_capacity blockLength) 0
  let buf ← PutUInt16 buf 0 blockLength
  let buf ← PutUInt16 buf 2 templateId
  let buf ← PutUInt16 buf 4 111
  PutUInt16 buf 6 8

end Cluster.Codecs

namespace Aeron.Util

/-! ## Bit patterns -/

theorem xor_mask (n m : Nat) (h : m < 2 ^ n) : m ^^^ (2 ^ n - 1) = 2 ^ n - 1 - m := by
  apply Nat.eq_of_testBit_eq
  intro i
  have e : 2 ^ n - 1 - m = 2 ^ n - (m + 1) := by omega
  rw [e, Nat.testBit_two_pow_sub_succ h, Nat.testBit_xor, Nat.testBit_two_pow_sub_one]
  by_cases hi : i < n
  · simp [hi]
  · have : m < 2 ^ i := lt_of_lt_of_le h (Nat.pow_le_pow_right (by norm_num) (by omega))
    simp [hi, Nat.testBit_lt_two_pow this]

theorem land_mask (n k x : Nat) (hk : k ≤ n) (hx : x < 2 ^ n) :
    x &&& (2 ^ n - 2 ^ k) = x - x % 2 ^ k := by
  apply Nat.eq_of_testBit_eq
  intro i
  have hpos : 0 < 2 ^ k := Nat.two_pow_pos k
  have hle : 2 ^ k ≤ 2 ^ n := Nat.pow_le_pow_right (by norm_num) hk
  have e1 : 2 ^ n - 2 ^ k = 2 ^ n - ((2 ^ k - 1) + 1) := by omega
  have e2 : x - x % 2 ^ k = 2 ^ k * (x / 2 ^ k) := by
    have := Nat.div_add_mod x (2 ^ k)
    omega
  rw [Nat.testBit_and, e1, Nat.testBit_two_pow_sub_succ (by omega), Nat.testBit_two_pow_sub_one,
    e2, Nat.testBit_mul_pow_two, ← Nat.shiftRight_eq_div_pow, Nat.testBit_shiftRight]
  by_cases hik : i < k
  · have : ¬ i ≥ k := by omega
    simp [hik, this]
  · have hge : i ≥ k := by omega
    have e3 : k + (i - k) = i := by omega
    by_cases hin : i < n
    · simp [hik, hge, hin, e3]
    · have : x < 2 ^ i := lt_of_lt_of_le hx (Nat.pow_le_pow_right (by norm_num) (by omega))
      simp [hik, hge, hin, e3, Nat.testBit_lt_two_pow this]

theorem lowbit (n x : Nat) (h0 : 0 < x) (hx : x < 2 ^ n) :
    ∃ r, r < n ∧ x &&& (2 ^ n - x) = 2 ^ r ∧ 2 ^ r ∣ x ∧ ¬ 2 ^ (r + 1) ∣ x := by
  obtain ⟨r, m, hm, hxm⟩ := Nat.exists_eq_two_pow_mul_odd (Nat.pos_iff_ne_zero.mp h0)
  obtain ⟨q, rfl⟩ := hm
  have hpos : 0 < 2 ^ r := Nat.two_pow_pos r
  have hrn : r < n := by
    have h1 : 2 ^ r ≤ x := by rw [hxm]; exact Nat.le_mul_of_pos_right _ (by omega)
    exact (Nat.pow_lt_pow_iff_right (by norm_num)).mp (lt_of_le_of_lt h1 hx)
  refine ⟨r, hrn, ?_, ⟨2 * q + 1, hxm⟩, ?_⟩
  · apply Nat.eq_of_testBit_eq
    intro i
    have e1 : 2 ^ n - x = 2 ^ n - ((x - 1) + 1) := by omega
    have e2 : x - 1 = 2 ^ r * (2 * q) + (2 ^ r - 1) := by
      rw [hxm, Nat.mul_add, Nat.mul_one]; omega
    rw [Nat.testBit_and, e1, Nat.testBit_two_pow_sub_succ (by omega), e2,
      Nat.testBit_mul_pow_two_add _ (by omega), Nat.testBit_two_pow]
    nth_rewrite 1 [hxm]
    rw [Nat.testBit_mul_pow_two, Nat.testBit_two_pow_sub_one]
    by_cases hir : i < r
    · have h1 : ¬ i ≥ r := by omega
      have h2 : ¬ r = i := by omega
      simp [h1, h2]
    · by_cases hir2 : i = r
      · subst hir2
        simp [hrn]
        omega
      · obtain ⟨d, hd⟩ : ∃ d, i - r = d + 1 := ⟨i - r - 1, by omega⟩
        have h1 : i ≥ r := by omega
        have h2 : ¬ r = i := by omega
        have h3 : (2 * q + 1) / 2 = q := by omega
        have h4 : (2 * q) / 2 = q := by omega
        simp [hir, h1, h2, hd, Nat.testBit_succ, h3, h4]
        exact fun hb _ => hb
  · rintro ⟨c, hc⟩
    rw [hxm, pow_succ, Nat.mul_assoc] at hc
    have := Nat.eq_of_mul_eq_mul_left hpos hc
    omega

/-! ## Arithmetic of the `FastMod3` recipe -/

theorem magic_div3 (low : Nat) (h : low < 4294967296) :
    low * 2863311531 / 8589934592 = low / 3 := by
  omega

theorem FastMod3_eq (v : Nat) : FastMod3 v = ((v % 2 ^ 32 % 3 : Nat) : Int) := by
  unfold FastMod3 FastMod3_product asInt32
  simp only [Nat.shiftRight_eq_div_pow]
  have h : v % 2 ^ 32 < 2 ^ 32 := Nat.mod_lt _ (by norm_num)
  generalize v % 2 ^ 32 = low at h
  have h' : low < 4294967296 := by norm_num at h; exact h
  have e1 : low * 0xAAAAAAAB % 2 ^ 64 = low * 2863311531 := by
    norm_num; nlinarith
  have e2 : low * 2863311531 / 2 ^ 33 = low / 3 := by
    have := magic_div3 low h'
    norm_num; exact this
  rw [e1, e2]
  have e3 : (low + 2 ^ 32 - low / 3 % 2 ^ 32 * 3 % 2 ^ 32) % 2 ^ 32 = low % 3 := by
    norm_num; omega
  rw [e3]
  have e4 : low % 3 % 2 ^ 32 = low % 3 := by norm_num; omega
  rw [e4]
  have : low % 3 < 2 ^ 31 := by norm_num; omega
  rw [if_pos this]

/-- C1 (as amended): for every `uint64` value `v`, `FastMod3(v)` equals
`int32(uint32(v) % 3)`, the residue modulo 3 of the low 32 bits of `v`. -/
theorem FastMod3_low32 (v : Nat) : FastMod3 v = asInt32 (v % 2 ^ 32 % 3) := by
  rw [FastMod3_eq]
  unfold asInt32
  have e : v % 2 ^ 32 % 3 % 2 ^ 32 = v % 2 ^ 32 % 3 := by norm_num; omega
  have l : v % 2 ^ 32 % 3 < 2 ^ 31 := by norm_num; omega
  rw [e, if_pos l]

/-- C1 (as stated) fails: at `v = 2 ^ 32` the code returns `0` while `int32(v % 3)` is `1`. -/
theorem FastMod3_uint64_counterexample :
    (2 ^ 32 : Nat) < 2 ^ 64 ∧ FastMod3 (2 ^ 32) = 0 ∧ asInt32 (2 ^ 32 % 3) = 1 ∧
      ¬ (∀ v : Nat, v < 2 ^ 64 → FastMod3 v = asInt32 (v % 3)) := by
  refine ⟨by decide, by decide, by decide, fun h => ?_⟩
  have h1 := h (2 ^ 32) (by decide)
  revert h1
  decide

/-- C2: for `0 ≤ v < 2 ^ 32`, `FastMod3 v` is `v mod 3`, hence one of `0, 1, 2`, and the
product `low * 0xAAAAAAAB` stays below `2 ^ 64`. -/
theorem FastMod3_32bit (v : Nat) (hv : v < 2 ^ 32) :
    FastMod3 v = ((v % 3 : Nat) : Int) ∧
      (FastMod3 v = 0 ∨ FastMod3 v = 1 ∨ FastMod3 v = 2) ∧
      FastMod3_product v < 2 ^ 64 := by
  have h : FastMod3 v = ((v % 3 : Nat) : Int) := by
    rw [FastMod3_eq, Nat.mod_eq_of_lt hv]
  refine ⟨h, ?_, ?_⟩
  · rw [h]
    omega
  · unfold FastMod3_product
    rw [Nat.mod_eq_of_lt hv]
    norm_num at hv ⊢
    omega

theorem FastMod3_32bit_witness :
    (4294967295 : Nat) < 2 ^ 32 ∧ (FastMod3 4294967295 = ((4294967295 % 3 : Nat) : Int) ∧
      (FastMod3 4294967295 = 0 ∨ FastMod3 4294967295 = 1 ∨ FastMod3 4294967295 = 2) ∧
      FastMod3_product 4294967295 < 2 ^ 64) :=
  ⟨by decide, FastMod3_32bit 4294967295 (by decide)⟩

/-! ## `Memcpy` -/

theorem CopyInv_step (dest0 src : Nat → Nat) (length : Int) (w : Nat) (st : CopyState)
    (hinv : CopyInv dest0 src length st) (hw : ((st.i + w : Nat) : Int) ≤ length) :
    CopyInv dest0 src length { copyWord w src st with i := st.i + w } := by
  obtain ⟨_, h2, h3, h4⟩ := hinv
  refine ⟨hw, ?_, ?_, ?_⟩
  · intro j hj
    simp only [copyWord]
    by_cases hc : st.i ≤ j ∧ j < st.i + w
    · rw [if_pos hc]
    · rw [if_neg hc]
      apply h2
      simp only at hj
      omega
  · intro j hj
    simp only [copyWord]
    simp only at hj
    have hc : ¬ (st.i ≤ j ∧ j < st.i + w) := by omega
    rw [if_neg hc]
    apply h3
    omega
  · intro a ha
    simp only [copyWord, List.mem_cons] at ha
    rcases ha with rfl | ha
    · exact hw
    · exact h4 a ha

theorem Memcpy_loop8_inv (dest0 src : Nat → Nat) (length i8 : Int)
    (hL : ∀ i : Nat, (i : Int) < i8 → ((i + 8 : Nat) : Int) ≤ length) :
    ∀ (n : Nat) (st : CopyState), (i8 - st.i).toNat = n → CopyInv dest0 src length st →
      CopyInv dest0 src length (Memcpy_loop8 src i8 st) := by
  intro n
  induction n using Nat.strong_induction_on with
  | _ n ih =>
    intro st hn hinv
    rw [Memcpy_loop8]
    split
    · rename_i hlt
      refine ih _ ?_ _ rfl (CopyInv_step dest0 src length 8 st hinv (hL _ hlt))
      simp only [copyWord]
      omega
    · exact hinv

theorem Memcpy_loop4_inv (dest0 src : Nat → Nat) (length i4 : Int)
    (hL : ∀ i : Nat, (i : Int) < i4 → ((i + 4 : Nat) : Int) ≤ length) :
    ∀ (n : Nat) (st : CopyState), (i4 - st.i).toNat = n → CopyInv dest0 src length st →
      CopyInv dest0 src length (Memcpy_loop4 src i4 st) := by
  intro n
  induction n using Nat.strong_induction_on with
  | _ n ih =>
    intro st hn hinv
    rw [Memcpy_loop4]
    split
    · rename_i hlt
      refine ih _ ?_ _ rfl (CopyInv_step dest0 src length 4 st hinv (hL _ hlt))
      simp only [copyWord]
      omega
    · exact hinv

theorem Memcpy_loop1_inv (dest0 src : Nat → Nat) (length : Int) :
    ∀ (n : Nat) (st : CopyState), (length - st.i).toNat = n → CopyInv dest0 src length st →
      CopyInv dest0 src length (Memcpy_loop1 src length st) ∧
        length ≤ (Memcpy_loop1 src length st).i := by
  intro n
  induction n using Nat.strong_induction_on with
  | _ n ih =>
    intro st hn hinv
    rw [Memcpy_loop1]
    split
    · rename_i hlt
      refine ih _ ?_ _ rfl (CopyInv_step dest0 src length 1 st hinv ?_)
      · simp only [copyWord]
        omega
      · push_cast
        omega
    · rename_i hge
      exact ⟨hinv, by omega⟩

theorem CopyInv_init (dest src : Nat → Nat) (length : Int) (h : 0 ≤ length) :
    CopyInv dest src length { dest := dest, i := 0, accesses := [] } := by
  refine ⟨by simpa using h, ?_, ?_, ?_⟩
  · intro j hj
    simp at hj
  · intro j _
    rfl
  · intro a ha
    simp at ha

theorem Memcpy_inv (dest src : Nat → Nat) (length : Int) (h : 0 ≤ length) :
    CopyInv dest src length (Memcpy dest src length) ∧
      length ≤ (Memcpy dest src length).i := by
  unfold Memcpy Memcpy_after4 Memcpy_after8
  refine Memcpy_loop1_inv dest src length _ _ rfl ?_
  have h8 : CopyInv dest src length
      (Memcpy_loop8 src (length >>> (3 : Nat)) { dest := dest, i := 0, accesses := [] }) := by
    refine Memcpy_loop8_inv dest src length _ ?_ _ _ rfl (CopyInv_init dest src length h)
    intro i hi
    rw [Int.shiftRight_eq_div_pow] at hi
    push_cast
    omega
  refine Memcpy_loop4_inv dest src length _ ?_ _ _ rfl h8
  intro i hi
  rw [Int.shiftRight_eq_div_pow] at hi
  push_cast
  omega

theorem Memcpy_nonpos (dest src : Nat → Nat) (length : Int) (h : length ≤ 0) :
    Memcpy dest src length = { dest := dest, i := 0, accesses := [] } := by
  have e8 : Memcpy_after8 dest src length = { dest := dest, i := 0, accesses := [] } := by
    unfold Memcpy_after8
    rw [Memcpy_loop8, if_neg]
    rw [Int.shiftRight_eq_div_pow]
    simp only [Nat.cast_zero]
    omega
  have e4 : Memcpy_after4 dest src length = { dest := dest, i := 0, accesses := [] } := by
    unfold Memcpy_after4
    rw [e8, Memcpy_loop4, if_neg]
    rw [Int.shiftRight_eq_div_pow]
    simp only [Nat.cast_zero]
    omega
  unfold Memcpy
  rw [e4, Memcpy_loop1, if_neg]
  simp only [Nat.cast_zero]
  omega

/-- C8: for a length in the `int32` range and disjoint regions, if `length ≥ 0` then after
`Memcpy` every destination byte below `length` equals the source byte, every destination
byte from `length` on is unchanged, and every access of the loops (the 8-byte and 4-byte
words among them) ends within the first `length` bytes; if `length ≤ 0` the destination is
unchanged and no access is made. -/
theorem Memcpy_correct (dest src : Nat → Nat) (length : Int) (_hlen : isInt32 length) :
    (0 ≤ length →
      (∀ j : Nat, (j : Int) < length → (Memcpy dest src length).dest j = src j) ∧
      (∀ j : Nat, length ≤ (j : Int) → (Memcpy dest src length).dest j = dest j) ∧
      (∀ a ∈ (Memcpy dest src length).accesses, ((a.1 + a.2 : Nat) : Int) ≤ length)) ∧
    (length ≤ 0 →
      (Memcpy dest src length).dest = dest ∧ (Memcpy dest src length).accesses = []) := by
  constructor
  · intro h
    obtain ⟨⟨h1, h2, h3, h4⟩, h5⟩ := Memcpy_inv dest src length h
    refine ⟨fun j hj => h2 j (by omega), fun j hj => h3 j (by omega), h4⟩
  · intro h
    rw [Memcpy_nonpos dest src length h]
    exact ⟨rfl, rfl⟩

theorem Memcpy_correct_witness :
    isInt32 102 ∧
    ((0 ≤ (102 : Int) →
      (∀ j : Nat, (j : Int) < 102 →
        (Memcpy (fun _ => 0) (fun j => j % 256) 102).dest j = (fun j => j % 256) j) ∧
      (∀ j : Nat, (102 : Int) ≤ (j : Int) →
        (Memcpy (fun _ => 0) (fun j => j % 256) 102).dest j = (fun _ => 0) j) ∧
      (∀ a ∈ (Memcpy (fun _ => 0) (fun j => j % 256) 102).accesses,
        ((a.1 + a.2 : Nat) : Int) ≤ 102)) ∧
    ((102 : Int) ≤ 0 →
      (Memcpy (fun _ => 0) (fun j => j % 256) 102).dest = (fun _ => 0) ∧
        (Memcpy (fun _ => 0) (fun j => j % 256) 102).accesses = [])) :=
  ⟨by unfold isInt32; decide, Memcpy_correct (fun _ => 0) (fun j => j % 256) 102
    (by unfold isInt32; decide)⟩

/-! ## `AlignInt32` -/

theorem ofInt32_lt (x : Int) : ofInt32 x < 2 ^ 32 := by
  unfold ofInt32
  omega

theorem AlignInt32_eq (v : Int) (k : Nat) (hk : k ≤ 30) :
    AlignInt32 v (2 ^ k) =
      asInt32 (ofInt32 (v + (2 ^ k - 1)) - ofInt32 (v + (2 ^ k - 1)) % 2 ^ k) := by
  unfold AlignInt32
  have hlt : (2 : Nat) ^ k < 2 ^ 32 := Nat.pow_lt_pow_right (by norm_num) (by omega)
  have hpos : 0 < (2 : Nat) ^ k := Nat.two_pow_pos k
  have e1 : ofInt32 (2 ^ k - 1) = 2 ^ k - 1 := by
    unfold ofInt32
    have : ((2 : Int) ^ k - 1) = (((2 ^ k - 1 : Nat)) : Int) := by
      push_cast [Nat.cast_sub hpos]
      rfl
    rw [this]
    have h2 : (((2 ^ k - 1 : Nat)) : Int) % 2 ^ 32 = ((2 ^ k - 1 : Nat) : Int) := by
      apply Int.emod_eq_of_lt
      · omega
      · have : ((2 ^ k - 1 : Nat) : Int) < ((2 ^ 32 : Nat) : Int) := by
          exact_mod_cast (by omega : 2 ^ k - 1 < 2 ^ 32)
        simpa using this
    rw [h2, Int.toNat_ofNat]
  have e2 : (2 ^ k - 1) ^^^ 0xFFFFFFFF = 2 ^ 32 - 2 ^ k := by
    have := xor_mask 32 (2 ^ k - 1) (by omega)
    have e : (0xFFFFFFFF : Nat) = 2 ^ 32 - 1 := by norm_num
    rw [e, this]
    omega
  rw [e1, e2, land_mask 32 k _ (by omega) (ofInt32_lt _)]

theorem asInt32_align (k : Nat) (hk : k ≤ 30) (s : Int) (h1 : -2 ^ 31 ≤ s) (h2 : s < 2 ^ 31) :
    asInt32 (ofInt32 s - ofInt32 s % 2 ^ k) = s - s % 2 ^ k := by
  have hapos : (0 : Int) < 2 ^ k := by positivity
  have hdvd : ((2 : Int) ^ k) ∣ 2 ^ 31 := pow_dvd_pow 2 (by omega)
  have hdvd32 : ((2 : Int) ^ k) ∣ 2 ^ 32 := pow_dvd_pow 2 (by omega)
  have hr0 : 0 ≤ s % 2 ^ k := Int.emod_nonneg _ (by omega)
  have hr1 : s % 2 ^ k < 2 ^ k := Int.emod_lt_of_pos _ hapos
  have hT : (-2 ^ 31 : Int) ≤ s - s % 2 ^ k := by
    obtain ⟨b, hb⟩ := hdvd
    have e : s - s % 2 ^ k = 2 ^ k * (s / 2 ^ k) := by
      have := Int.emod_add_ediv s (2 ^ k)
      omega
    rw [e]
    have hle : -b ≤ s / 2 ^ k := by
      apply Int.le_ediv_of_mul_le hapos
      have : -b * 2 ^ k = -(2 ^ 31) := by rw [hb]; ring
      rw [this]
      exact h1
    have := mul_le_mul_of_nonneg_left hle (le_of_lt hapos)
    have e2 : (2 : Int) ^ k * -b = -2 ^ 31 := by rw [hb]; ring
    rw [e2] at this
    exact this
  have hX : ((ofInt32 s : Nat) : Int) = s % 2 ^ 32 := by
    unfold ofInt32
    omega
  have hXA : (((ofInt32 s % 2 ^ k : Nat)) : Int) = s % 2 ^ k := by
    push_cast
    rw [hX]
    exact Int.emod_emod_of_dvd s hdvd32
  have hY : (((ofInt32 s - ofInt32 s % 2 ^ k : Nat)) : Int) = s % 2 ^ 32 - s % 2 ^ k := by
    rw [Nat.cast_sub (Nat.mod_le _ _), hXA, hX]
  unfold asInt32
  generalize ofInt32 s - ofInt32 s % 2 ^ k = y at hY
  generalize s % 2 ^ k = r at hr0 hr1 hT hY
  generalize (2 : Int) ^ k = a at hr1
  split_ifs <;> omega

theorem asInt32_align_dvd (k : Nat) (hk : k ≤ 30) (x : Nat) (hx : x < 2 ^ 32) :
    (2 ^ k : Int) ∣ asInt32 (x - x % 2 ^ k) := by
  have hdvd32 : ((2 : Int) ^ k) ∣ 2 ^ 32 := pow_dvd_pow 2 (by omega)
  have hy : ((2 : Int) ^ k) ∣ ((x - x % 2 ^ k : Nat) : Int) := by
    have : (2 : Nat) ^ k ∣ x - x % 2 ^ k := Nat.dvd_sub_mod x
    exact_mod_cast (Int.natCast_dvd_natCast.mpr this)
  have hlt : (x - x % 2 ^ k) % 2 ^ 32 = x - x % 2 ^ k := Nat.mod_eq_of_lt (by omega)
  unfold asInt32
  rw [hlt]
  split_ifs
  · exact hy
  · exact dvd_sub hy hdvd32

theorem AlignInt32_bounds (k : Nat) (hk : k ≤ 30) (v : Int) (hv : isInt32 v)
    (hsum : v + (2 ^ k - 1) < 2 ^ 31) :
    AlignInt32 v (2 ^ k) = (v + (2 ^ k - 1)) - (v + (2 ^ k - 1)) % 2 ^ k := by
  have hapos : (0 : Int) < 2 ^ k := by positivity
  rw [AlignInt32_eq v k hk]
  exact asInt32_align k hk _ (by have := hv.1; omega) hsum

/-- C3: for an alignment `2 ^ k` with `k ≤ 30` and an `int32` value `v` whose sum with
`2 ^ k - 1` does not overflow, `AlignInt32` returns the least multiple of the alignment that
is at least `v`; moreover aligning `L + 32` to 32 gives a multiple of 32, aligning `L + 8`
to 8 gives a multiple of 8, and `AlignInt32(16 + 8, 8) = 24`. -/
theorem AlignInt32_least_multiple (k : Nat) (hk : k ≤ 30) (v : Int) (hv : isInt32 v)
    (hsum : v + (2 ^ k - 1) < 2 ^ 31) :
    ((2 : Int) ^ k ∣ AlignInt32 v (2 ^ k) ∧ v ≤ AlignInt32 v (2 ^ k) ∧
      AlignInt32 v (2 ^ k) < v + 2 ^ k ∧
      ∀ m : Int, (2 : Int) ^ k ∣ m → v ≤ m → AlignInt32 v (2 ^ k) ≤ m) ∧
    (∀ L : Int, (32 : Int) ∣ AlignInt32 (L + 32) 32) ∧
    (∀ L : Int, (8 : Int) ∣ AlignInt32 (L + 8) 8) ∧
    AlignInt32 (16 + 8) 8 = 24 := by
  have hapos : (0 : Int) < 2 ^ k := by positivity
  have hr0 := Int.emod_nonneg (v + (2 ^ k - 1)) (ne_of_gt hapos)
  have hr1 := Int.emod_lt_of_pos (v + (2 ^ k - 1)) hapos
  have hd : (2 : Int) ^ k ∣ AlignInt32 v (2 ^ k) := by
    rw [AlignInt32_eq v k hk]
    exact asInt32_align_dvd k hk _ (ofInt32_lt _)
  have hlo : v ≤ AlignInt32 v (2 ^ k) := by
    rw [AlignInt32_bounds k hk v hv hsum]
    omega
  have hhi : AlignInt32 v (2 ^ k) < v + 2 ^ k := by
    rw [AlignInt32_bounds k hk v hv hsum]
    omega
  refine ⟨⟨hd, hlo, hhi, ?_⟩, ?_, ?_, by decide⟩
  · intro m hm hvm
    obtain ⟨c, hc⟩ := dvd_sub hd hm
    by_contra hcon
    have h1 : 0 < 2 ^ k * c := by omega
    have h2 : 2 ^ k * c < 2 ^ k * 1 := by omega
    have h3 : 0 < c := pos_of_mul_pos_right h1 (le_of_lt hapos)
    have h4 : c < 1 := lt_of_mul_lt_mul_left h2 (le_of_lt hapos)
    omega
  · intro L
    have h := AlignInt32_eq (L + 32) 5 (by omega)
    have e : ((2 : Int) ^ 5) = 32 := by norm_num
    rw [e] at h
    rw [h, ← e]
    exact asInt32_align_dvd 5 (by omega) _ (ofInt32_lt _)
  · intro L
    have h := AlignInt32_eq (L + 8) 3 (by omega)
    have e : ((2 : Int) ^ 3) = 8 := by norm_num
    rw [e] at h
    rw [h, ← e]
    exact asInt32_align_dvd 3 (by omega) _ (ofInt32_lt _)

theorem AlignInt32_least_multiple_witness :
    (5 ≤ 30) ∧ isInt32 100 ∧ ((100 : Int) + (2 ^ 5 - 1) < 2 ^ 31) ∧
    (((2 : Int) ^ 5 ∣ AlignInt32 100 (2 ^ 5) ∧ (100 : Int) ≤ AlignInt32 100 (2 ^ 5) ∧
      AlignInt32 100 (2 ^ 5) < 100 + 2 ^ 5 ∧
      ∀ m : Int, (2 : Int) ^ 5 ∣ m → 100 ≤ m → AlignInt32 100 (2 ^ 5) ≤ m) ∧
    (∀ L : Int, (32 : Int) ∣ AlignInt32 (L + 32) 32) ∧
    (∀ L : Int, (8 : Int) ∣ AlignInt32 (L + 8) 8) ∧
    AlignInt32 (16 + 8) 8 = 24) :=
  ⟨by decide, by unfold isInt32; decide, by decide,
    AlignInt32_least_multiple 5 (by decide) 100 (by unfold isInt32; decide) (by decide)⟩

/-- C4 (as stated) fails: the code aligns `100 - 32 + 32 = 100` up to `128`, not to `96`. -/
theorem AlignInt32_S3_not_96 : ¬ (AlignInt32 (100 - 32 + 32) 32 = 96) := by
  decide

/-- C4 (as amended): `AlignInt32(100 - 32 + 32, 32) = 128`. -/
theorem AlignInt32_scenario_S3 : AlignInt32 (100 - 32 + 32) 32 = 128 := by
  decide

/-! ## `NumberOfTrailingZeroes` and `IsPowerOfTwo` -/

theorem NumberOfTrailingZeroes_index_lt (value : Nat) :
    NumberOfTrailingZeroes_index value < NumberOfTrailingZeroes_table.length := by
  unfold NumberOfTrailingZeroes_index
  rw [Nat.shiftRight_eq_div_pow]
  have : NumberOfTrailingZeroes_table.length = 32 := by decide
  rw [this]
  omega

theorem NumberOfTrailingZeroes_pow (r : Nat) (hr : r < 32) :
    NumberOfTrailingZeroes_table[((2 ^ r * 0x04D7651F) % 2 ^ 32) >>> 27]? = some r := by
  interval_cases r <;> decide

theorem NumberOfTrailingZeroes_nonzero (value : Nat) (hv : value < 2 ^ 32) (h0 : value ≠ 0) :
    ∃ r, r ≤ 31 ∧ NumberOfTrailingZeroes value = some r ∧ 2 ^ r ∣ value ∧
      ¬ 2 ^ (r + 1) ∣ value := by
  obtain ⟨r, hr, hland, hd, hnd⟩ := lowbit 32 value (Nat.pos_of_ne_zero h0) hv
  refine ⟨r, by omega, ?_, hd, hnd⟩
  unfold NumberOfTrailingZeroes NumberOfTrailingZeroes_index
  have e : (2 ^ 32 - value) % 2 ^ 32 = 2 ^ 32 - value := Nat.mod_eq_of_lt (by omega)
  rw [if_neg h0, e, hland]
  exact NumberOfTrailingZeroes_pow r hr

/-- C5: for a non-zero `uint32` value `NumberOfTrailingZeroes` returns the index `r ≤ 31` of
the least significant set bit (`2 ^ r` divides the value and `2 ^ (r + 1)` does not); for
`0` it returns `32`; and the lookup index is always within the 32-entry table. -/
theorem NumberOfTrailingZeroes_correct (value : Nat) (hv : value < 2 ^ 32) :
    (value ≠ 0 → ∃ r, r ≤ 31 ∧ NumberOfTrailingZeroes value = some r ∧ 2 ^ r ∣ value ∧
      ¬ 2 ^ (r + 1) ∣ value) ∧
    (value = 0 → NumberOfTrailingZeroes value = some 32) ∧
    NumberOfTrailingZeroes_index value < 32 ∧
    NumberOfTrailingZeroes_table.length = 32 := by
  refine ⟨NumberOfTrailingZeroes_nonzero value hv, ?_, ?_, by decide⟩
  · intro h
    rw [h]
    decide
  · exact NumberOfTrailingZeroes_index_lt value

theorem NumberOfTrailingZeroes_correct_witness :
    (48 : Nat) < 2 ^ 32 ∧
    ((48 ≠ 0 → ∃ r, r ≤ 31 ∧ NumberOfTrailingZeroes 48 = some r ∧ 2 ^ r ∣ 48 ∧
      ¬ 2 ^ (r + 1) ∣ 48) ∧
    (48 = 0 → NumberOfTrailingZeroes 48 = some 32) ∧
    NumberOfTrailingZeroes_index 48 < 32 ∧
    NumberOfTrailingZeroes_table.length = 32) :=
  ⟨by decide, NumberOfTrailingZeroes_correct 48 (by decide)⟩

theorem IsPowerOfTwo_pos (x : Nat) (h0 : 0 < x) (hx : x < 2 ^ 63) :
    IsPowerOfTwo (x : Int) = true ↔ ∃ k : Nat, k ≤ 62 ∧ x = 2 ^ k := by
  obtain ⟨r, hr, hland, hd, hnd⟩ := lowbit 64 x h0 (by omega)
  have hle : 2 ^ r ≤ x := Nat.le_of_dvd h0 hd
  have e1 : ofInt64 (x : Int) = x := by
    unfold ofInt64
    omega
  have e2 : x ^^^ 0xFFFFFFFFFFFFFFFF = 2 ^ 64 - 1 - x := by
    have e : (0xFFFFFFFFFFFFFFFF : Nat) = 2 ^ 64 - 1 := by norm_num
    rw [e]
    exact xor_mask 64 x (by omega)
  have e3 : ofInt64 (asInt64 (2 ^ 64 - 1 - x) + 1) = 2 ^ 64 - x := by
    unfold ofInt64 asInt64
    split_ifs <;> omega
  have e4 : asInt64 (2 ^ r) = ((2 ^ r : Nat) : Int) := by
    unfold asInt64
    have : 2 ^ r % 2 ^ 64 = 2 ^ r := Nat.mod_eq_of_lt (by omega)
    rw [this, if_pos (by omega)]
  unfold IsPowerOfTwo
  rw [e1, e2, e3, hland, e4]
  have hpos : decide ((x : Int) > 0) = true := by
    simp only [gt_iff_lt, decide_eq_true_eq]
    omega
  rw [hpos, Bool.true_and, beq_iff_eq]
  constructor
  · intro h
    have h2 : 2 ^ r = x := by exact_mod_cast h
    refine ⟨r, ?_, h2.symm⟩
    have : 2 ^ r < 2 ^ 63 := by omega
    have := (Nat.pow_lt_pow_iff_right (by norm_num : 1 < 2)).mp this
    omega
  · rintro ⟨k, _, hk⟩
    have h1 : r ≤ k := by
      rw [hk] at hd
      exact (Nat.pow_dvd_pow_iff_le_right (by norm_num : 1 < 2)).mp hd
    have h2 : ¬ r + 1 ≤ k := by
      intro hc
      apply hnd
      rw [hk]
      exact pow_dvd_pow 2 hc
    have : r = k := by omega
    rw [this, hk]

/-- C6: for every `int64` value, `IsPowerOfTwo` holds exactly when the value is `2 ^ k` for
some `0 ≤ k ≤ 62`; it is false for every value that is zero or negative, in particular for
`0` and for the minimum `int64`, and (by the equivalence) for every value with more than one
bit set. -/
theorem IsPowerOfTwo_iff (value : Int) (hv : isInt64 value) :
    (IsPowerOfTwo value = true ↔ ∃ k : Nat, k ≤ 62 ∧ value = 2 ^ k) ∧
    (value ≤ 0 → IsPowerOfTwo value = false) ∧
    IsPowerOfTwo 0 = false ∧ IsPowerOfTwo (-2 ^ 63) = false := by
  have hneg : ∀ w : Int, w ≤ 0 → IsPowerOfTwo w = false := by
    intro w hw
    unfold IsPowerOfTwo
    have : decide (w > 0) = false := by
      simp only [gt_iff_lt, decide_eq_false_iff_not]
      omega
    rw [this, Bool.false_and]
  refine ⟨?_, hneg value, hneg 0 (by decide), hneg (-2 ^ 63) (by decide)⟩
  by_cases hpos : 0 < value
  · obtain ⟨x, rfl⟩ := Int.eq_ofNat_of_zero_le (le_of_lt hpos)
    have hx : x < 2 ^ 63 := by
      have := hv.2
      omega
    rw [IsPowerOfTwo_pos x (by omega) hx]
    constructor
    · rintro ⟨k, hk, h⟩
      exact ⟨k, hk, by exact_mod_cast h⟩
    · rintro ⟨k, hk, h⟩
      exact ⟨k, hk, by exact_mod_cast h⟩
  · rw [hneg value (by omega)]
    constructor
    · intro h
      exact absurd h (by decide)
    · rintro ⟨k, _, h⟩
      have : (0 : Int) < 2 ^ k := by positivity
      omega

theorem IsPowerOfTwo_iff_witness :
    isInt64 64 ∧
    ((IsPowerOfTwo 64 = true ↔ ∃ k : Nat, k ≤ 62 ∧ (64 : Int) = 2 ^ k) ∧
    ((64 : Int) ≤ 0 → IsPowerOfTwo 64 = false) ∧
    IsPowerOfTwo 0 = false ∧ IsPowerOfTwo (-2 ^ 63) = false) :=
  ⟨by unfold isInt64; decide, IsPowerOfTwo_iff 64 (by unfold isInt64; decide)⟩

theorem NumberOfTrailingZeroes_two_pow (k : Nat) (hk : k < 32) :
    NumberOfTrailingZeroes (ofInt32 (2 ^ k)) = some k ∧ ((1 <<< k : Nat) : Int) = 2 ^ k := by
  interval_cases k <;> exact ⟨by decide, by decide⟩

/-- C7: for an `int64` value `v` below `2 ^ 32` with `IsPowerOfTwo v`, the call
`NumberOfTrailingZeroes(uint32(v))` returns a count `n` with `1 << n = v`. -/
theorem NumberOfTrailingZeroes_log2 (v : Int) (hv : isInt64 v) (hp : IsPowerOfTwo v = true)
    (hlt : v < 2 ^ 32) :
    ∃ n : Nat, NumberOfTrailingZeroes (ofInt32 v) = some n ∧ ((1 <<< n : Nat) : Int) = v := by
  have hpos : 0 < v := by
    unfold IsPowerOfTwo at hp
    simp only [Bool.and_eq_true, decide_eq_true_eq] at hp
    exact hp.1
  obtain ⟨x, rfl⟩ := Int.eq_ofNat_of_zero_le (le_of_lt hpos)
  have hx : x < 2 ^ 63 := by
    have := hv.2
    omega
  obtain ⟨k, _, hk⟩ := (IsPowerOfTwo_pos x (by omega) hx).mp hp
  subst hk
  have hk32 : k < 32 := by
    have h : (2 : Nat) ^ k < 2 ^ 32 := by exact_mod_cast hlt
    exact (Nat.pow_lt_pow_iff_right (by norm_num : 1 < 2)).mp h
  refine ⟨k, ?_⟩
  have := NumberOfTrailingZeroes_two_pow k hk32
  push_cast
  exact this

theorem NumberOfTrailingZeroes_log2_witness :
    isInt64 65536 ∧ IsPowerOfTwo 65536 = true ∧ (65536 : Int) < 2 ^ 32 ∧
    ∃ n : Nat, NumberOfTrailingZeroes (ofInt32 65536) = some n ∧
      ((1 <<< n : Nat) : Int) = 65536 :=
  ⟨by unfold isInt64; decide, by decide, by decide,
    NumberOfTrailingZeroes_log2 65536 (by unfold isInt64; decide) (by decide) (by decide)⟩

end Aeron.Util

namespace Aeron.Logbuffer

/-- C9: the field offset constants are 0, 4, 5, 6, 8, 12, 16, 20, 24 and the header length
and data offset are 32; with the field widths 4, 1, 1, 2, 4, 4, 4, 4, 8 every field lies
within the header and every byte of `[0, 32)` lies in exactly one field; and the header
length is a multiple of the frame alignment. -/
theorem DataFrameHeader_layout :
    (DataFrameHeader_FrameLengthFieldOffset = 0 ∧ DataFrameHeader_VersionFieldOffset = 4 ∧
      DataFrameHeader_FlagsFieldOffset = 5 ∧ DataFrameHeader_TypeFieldOffset = 6 ∧
      DataFrameHeader_TermOffsetFieldOffset = 8 ∧ DataFrameHeader_SessionIDFieldOffset = 12 ∧
      DataFrameHeader_StreamIDFieldOffset = 16 ∧ DataFrameHeader_TermIDFieldOffset = 20 ∧
      DataFrameHeader_ReservedValueFieldOffset = 24) ∧
    (DataFrameHeader_Length = 32 ∧ DataFrameHeader_DataOffset = 32) ∧
    DataFrameHeader_fields.map Prod.snd = [4, 1, 1, 2, 4, 4, 4, 4, 8] ∧
    (∀ f ∈ DataFrameHeader_fields, 0 ≤ f.1 ∧ 0 < f.2 ∧ f.1 + f.2 ≤ DataFrameHeader_Length) ∧
    (∀ b : Fin 32, DataFrameHeader_fields.countP
      (fun f => decide (f.1 ≤ (b.val : Int) ∧ (b.val : Int) < f.1 + f.2)) = 1) ∧
    DataFrameHeader_Length % FrameAlignment = 0 := by
  refine ⟨by decide, by decide, by decide, by decide, by decide, by decide⟩

/-- C10: the frame type constants are `0x00, 0x01, 0x02, 0x03, 0x04, 0x05, 0xFFFF`; they are
pairwise distinct and each is below `2 ^ 16`. -/
theorem DataFrameHeader_type_constants :
    (DataFrameHeader_TypePad = 0x00 ∧ DataFrameHeader_TypeData = 0x01 ∧
      DataFrameHeader_TypeNAK = 0x02 ∧ DataFrameHeader_TypeSM = 0x03 ∧
      DataFrameHeader_TypeErr = 0x04 ∧ DataFrameHeader_TypeSetup = 0x05 ∧
      DataFrameHeader_TypeExt = 0xFFFF) ∧
    DataFrameHeader_types.Nodup ∧
    (∀ t ∈ DataFrameHeader_types, t < 2 ^ 16) := by
  refine ⟨by decide, by decide, by decide⟩

end Aeron.Logbuffer

namespace Aeron.Client

/-! ## The blocking and the channel-returning `Add*` operations -/

theorem spins_succ {Pub Sub Err : Type} (probe : Call Pub Sub Err) (n : Nat) :
    spins probe (n + 1) = [probe, Call.idle 0] ++ spins probe n := rfl

theorem awaitFind_pending {α Pub Sub Err : Type} (find : Nat → Option α × Option Err)
    (probe : Call Pub Sub Err) :
    ∀ (n fuel k : Nat) (calls : List (Call Pub Sub Err)), n < fuel →
      (∀ j, j < n → find (k + j) = (none, none)) →
      ((find (k + n)).1.isSome ∨ (find (k + n)).2.isSome) →
      awaitFind find probe fuel k calls =
        some (find (k + n), calls ++ spins probe n ++ [probe]) := by
  intro n
  induction n with
  | zero =>
    intro fuel k calls hfuel _ hres
    obtain ⟨f, rfl⟩ : ∃ f, fuel = f + 1 := ⟨fuel - 1, by omega⟩
    have hc : ((find k).1.isSome || (find k).2.isSome) = true := by
      simpa using hres
    simp [awaitFind, hc, spins]
  | succ n ih =>
    intro fuel k calls hfuel hpend hres
    obtain ⟨f, rfl⟩ : ∃ f, fuel = f + 1 := ⟨fuel - 1, by omega⟩
    have h0 : find k = (none, none) := by simpa using hpend 0 (by omega)
    have hc : ¬ (((find k).1.isSome || (find k).2.isSome) = true) := by
      rw [h0]
      simp
    have e : k + (n + 1) = k + 1 + n := by omega
    rw [awaitFind, if_neg hc, e]
    rw [ih f (k + 1) _ (by omega) ?_ (by rw [← e]; exact hres)]
    · simp [spins_succ]
    · intro j hj
      have := hpend (j + 1) (by omega)
      rw [← this]
      congr 1
      omega

theorem awaitFind_resolves {α Pub Sub Err : Type} (find : Nat → Option α × Option Err)
    (probe : Call Pub Sub Err) (n fuel : Nat) (calls : List (Call Pub Sub Err))
    (x : Option α) (err : Option Err) (hfuel : n < fuel) (h : ResolvesAfter find n x err) :
    awaitFind find probe fuel 0 calls = some ((x, err), calls ++ spins probe n ++ [probe]) := by
  obtain ⟨hpend, hfin, hres⟩ := h
  have := awaitFind_pending find probe n fuel 0 calls hfuel
    (by intro j hj; rw [Nat.zero_add]; exact hpend j hj)
    (by rw [Nat.zero_add, hfin]; exact hres)
  rw [this, Nat.zero_add, hfin]

theorem filter_spins {Pub Sub Err : Type} (p : Call Pub Sub Err → Bool)
    (probe : Call Pub Sub Err) (hp : p probe = false) (hi : p (Call.idle 0) = false) (n : Nat) :
    (spins probe n).filter p = [] := by
  induction n with
  | zero => rfl
  | succ n ih =>
    rw [spins_succ, List.filter_append, ih]
    simp [List.filter_cons, hp, hi]

theorem filter_isIdle_spins {Pub Sub Err : Type} (probe : Call Pub Sub Err)
    (hp : probe.isIdle = false) (n : Nat) :
    ((spins probe n).filter Call.isIdle).length = n := by
  have hi : (Call.idle 0 : Call Pub Sub Err).isIdle = true := rfl
  induction n with
  | zero => rfl
  | succ n ih =>
    rw [spins_succ, List.filter_append, List.length_append, ih]
    simp [List.filter_cons, hp, hi]
    omega

theorem idle_count {Pub Sub Err : Type} (first probe : Call Pub Sub Err)
    (hf : first.isIdle = false) (hp : probe.isIdle = false) (n : Nat) :
    (([first] ++ spins probe n ++ [probe]).filter Call.isIdle).length = n := by
  rw [List.filter_append, List.filter_append, List.length_append, List.length_append,
    filter_isIdle_spins probe hp]
  simp [List.filter_cons, hf, hp]

/-- C11: when the conductor's add call returns `(id, nil)` and the probes `Find*(id)` return
`(nil, nil)` exactly `n` times and then a resolved `(obj, err)`, each of `AddPublication`,
`AddSubscription` and `AddExclusivePublication` (allowed more than `n` probes) returns
`(obj, err)`, having made the add call, then `n` times a probe with `id` followed by
`Idle(0)`, then the last probe with `id`: `Idle(0)` is called exactly `n` times. -/
theorem Add_returns_resolution {σ Pub Sub Err : Type} (aeron : Aeron σ Pub Sub Err)
    (n fuel : Nat) (channel : String) (streamID : Int) (hfuel : n < fuel) :
    (∀ (id : Int) (obj : Option Pub) (err : Option Err),
      aeron.conductor.AddPublication (aeron.state 0) channel streamID = (id, none) →
      ResolvesAfter (fun k => aeron.conductor.FindPublication (aeron.state (k + 1)) id)
        n obj err →
      ∃ calls, AddPublication aeron fuel channel streamID = some ((obj, err), calls) ∧
        calls = [Call.addPublication channel streamID] ++ spins (Call.findPublication id) n ++
          [Call.findPublication id] ∧
        (calls.filter Call.isIdle).length = n) ∧
    (∀ (id : Int) (obj : Option Sub) (err : Option Err),
      aeron.conductor.AddSubscription (aeron.state 0) channel streamID = (id, none) →
      ResolvesAfter (fun k => aeron.conductor.FindSubscription (aeron.state (k + 1)) id)
        n obj err →
      ∃ calls, AddSubscription aeron fuel channel streamID = some ((obj, err), calls) ∧
        calls = [Call.addSubscription channel streamID] ++ spins (Call.findSubscription id) n ++
          [Call.findSubscription id] ∧
        (calls.filter Call.isIdle).length = n) ∧
    (∀ (id : Int) (obj : Option Pub) (err : Option Err),
      aeron.conductor.AddExclusivePublication (aeron.state 0) channel streamID = (id, none) →
      ResolvesAfter (fun k => aeron.conductor.FindPublication (aeron.state (k + 1)) id)
        n obj err →
      ∃ calls, AddExclusivePublication aeron fuel channel streamID = some ((obj, err), calls) ∧
        calls = [Call.addExclusivePublication channel streamID] ++
          spins (Call.findPublication id) n ++ [Call.findPublication id] ∧
        (calls.filter Call.isIdle).length = n) := by
  refine ⟨?_, ?_, ?_⟩
  · intro id obj err hadd hres
    refine ⟨_, ?_, rfl, ?_⟩
    · unfold AddPublication
      simp only [hadd]
      exact awaitFind_resolves _ _ n fuel _ obj err hfuel hres
    · apply idle_count <;> rfl
  · intro id obj err hadd hres
    refine ⟨_, ?_, rfl, ?_⟩
    · unfold AddSubscription
      simp only [hadd]
      exact awaitFind_resolves _ _ n fuel _ obj err hfuel hres
    · apply idle_count <;> rfl
  · intro id obj err hadd hres
    refine ⟨_, ?_, rfl, ?_⟩
    · unfold AddExclusivePublication
      simp only [hadd]
      exact awaitFind_resolves _ _ n fuel _ obj err hfuel hres
    · apply idle_count <;> rfl

theorem demoAeron_resolves (id : Int) (h : id ≠ 0) :
    ResolvesAfter (fun k => demoAeron.conductor.FindPublication (demoAeron.state (k + 1)) id)
      2 (some (100 + id.toNat)) none := by
  refine ⟨?_, ?_, Or.inl rfl⟩
  · intro j hj
    have : j + 1 < 3 := by omega
    simp [demoAeron, demoConductor, this]
  · simp [demoAeron, demoConductor, h]

theorem Add_returns_resolution_witness :
    2 < 3 ∧ ∃ calls, AddPublication demoAeron 3 "aeron:ipc" 1002 = some ((some 107, none), calls) ∧
      calls = [Call.addPublication "aeron:ipc" 1002] ++ spins (Call.findPublication 7) 2 ++
        [Call.findPublication 7] ∧
      (calls.filter Call.isIdle).length = 2 :=
  ⟨by decide, (Add_returns_resolution demoAeron 2 3 "aeron:ipc" 1002 (by decide)).1 7
    (some 107) none rfl (demoAeron_resolves 7 (by decide))⟩

/-- C12: when the conductor's add call returns an error `err`, each of `AddPublication`,
`AddSubscription` and `AddExclusivePublication` returns `(nil, err)` having made the add
call only: no probe, no idle call, whatever the number of probes allowed. -/
theorem Add_returns_add_error {σ Pub Sub Err : Type} (aeron : Aeron σ Pub Sub Err)
    (fuel : Nat) (channel : String) (streamID : Int) :
    (∀ (id : Int) (err : Err),
      aeron.conductor.AddPublication (aeron.state 0) channel streamID = (id, some err) →
      AddPublication aeron fuel channel streamID =
        some ((none, some err), [Call.addPublication channel streamID])) ∧
    (∀ (id : Int) (err : Err),
      aeron.conductor.AddSubscription (aeron.state 0) channel streamID = (id, some err) →
      AddSubscription aeron fuel channel streamID =
        some ((none, some err), [Call.addSubscription channel streamID])) ∧
    (∀ (id : Int) (err : Err),
      aeron.conductor.AddExclusivePublication (aeron.state 0) channel streamID =
        (id, some err) →
      AddExclusivePublication aeron fuel channel streamID =
        some ((none, some err), [Call.addExclusivePublication channel streamID])) := by
  refine ⟨?_, ?_, ?_⟩
  · intro id err hadd
    unfold AddPublication
    simp only [hadd]
  · intro id err hadd
    unfold AddSubscription
    simp only [hadd]
  · intro id err hadd
    unfold AddExclusivePublication
    simp only [hadd]

theorem Add_returns_add_error_witness :
    AddSubscription demoAeron 0 "" 1002 =
      some ((none, some "invalid channel"), [Call.addSubscription "" 1002]) :=
  (Add_returns_add_error demoAeron 0 "" 1002).2.1 0 "invalid channel" rfl

theorem awaitFind_calls {α Pub Sub Err : Type} (find : Nat → Option α × Option Err)
    (probe : Call Pub Sub Err) :
    ∀ (fuel k : Nat) (calls : List (Call Pub Sub Err)),
      awaitFind find probe fuel k calls =
        (awaitFind find probe fuel k []).map (fun r => (r.1, calls ++ r.2)) := by
  intro fuel
  induction fuel with
  | zero =>
    intro k calls
    rfl
  | succ fuel ih =>
    intro k calls
    by_cases hc : ((find k).1.isSome || (find k).2.isSome) = true
    · simp [awaitFind, hc]
    · rw [awaitFind, if_neg hc, awaitFind, if_neg hc, ih (k + 1) (calls ++ _),
        ih (k + 1) ([] ++ _), Option.map_map]
      congr 1
      funext r
      simp

/-- C13: `GetExclusivePublication(id)` and `GetPublication(id)` both return the result of the
conductor's `FindPublication(id)` in the state they meet, hence the same pair; and
`AddExclusivePublication` is `AddPublication` over the conductor whose `AddPublication` is
the exclusive add call: the same result and, after the add call itself (which is
`addExclusivePublication` for the one and `addPublication` for the other), the same calls. -/
theorem exclusive_resolved_as_publication {σ Pub Sub Err : Type} (aeron : Aeron σ Pub Sub Err)
    (registrationID : Int) (fuel : Nat) (channel : String) (streamID : Int) :
    GetExclusivePublication aeron registrationID = GetPublication aeron registrationID ∧
    GetPublication aeron registrationID =
      aeron.conductor.FindPublication (aeron.state 0) registrationID ∧
    (AddExclusivePublication aeron fuel channel streamID).map (fun r => (r.1, r.2.tail)) =
      (AddPublication
        { aeron with conductor :=
            { aeron.conductor with AddPublication := aeron.conductor.AddExclusivePublication } }
        fuel channel streamID).map (fun r => (r.1, r.2.tail)) ∧
    (∀ r, AddExclusivePublication aeron fuel channel streamID = some r →
      r.2.head? = some (Call.addExclusivePublication channel streamID)) ∧
    (∀ r, AddPublication aeron fuel channel streamID = some r →
      r.2.head? = some (Call.addPublication channel streamID)) := by
  refine ⟨rfl, rfl, ?_, ?_, ?_⟩
  · unfold AddExclusivePublication AddPublication
    simp only
    cases h : (aeron.conductor.AddExclusivePublication (aeron.state 0) channel streamID).2 with
    | some err => rfl
    | none =>
      simp only
      rw [awaitFind_calls _ _ fuel 0 [Call.addExclusivePublication channel streamID],
        awaitFind_calls _ _ fuel 0 [Call.addPublication channel streamID]]
      simp [Option.map_map, Function.comp_def]
  · intro r hr
    unfold AddExclusivePublication at hr
    simp only at hr
    cases h : (aeron.conductor.AddExclusivePublication (aeron.state 0) channel streamID).2 with
    | some err =>
      rw [h] at hr
      simp only [Option.some.injEq] at hr
      rw [← hr]
      rfl
    | none =>
      rw [h] at hr
      simp only at hr
      rw [awaitFind_calls] at hr
      obtain ⟨q, _, hq⟩ := Option.map_eq_some'.mp hr
      rw [← hq]
      rfl
  · intro r hr
    unfold AddPublication at hr
    simp only at hr
    cases h : (aeron.conductor.AddPublication (aeron.state 0) channel streamID).2 with
    | some err =>
      rw [h] at hr
      simp only [Option.some.injEq] at hr
      rw [← hr]
      rfl
    | none =>
      rw [h] at hr
      simp only at hr
      rw [awaitFind_calls] at hr
      obtain ⟨q, _, hq⟩ := Option.map_eq_some'.mp hr
      rw [← hq]
      rfl

theorem exclusive_resolved_as_publication_witness :
    AddExclusivePublication demoAeron 3 "aeron:ipc" 1002 =
      some ((some 108, none),
        [Call.addExclusivePublication "aeron:ipc" 1002, Call.findPublication 8, Call.idle 0,
          Call.findPublication 8, Call.idle 0, Call.findPublication 8]) ∧
    [Call.addExclusivePublication "aeron:ipc" 1002, Call.findPublication 8, Call.idle 0,
      Call.findPublication 8, Call.idle 0, (Call.findPublication 8 : Call Nat Nat String)].head? =
      some (Call.addExclusivePublication "aeron:ipc" 1002) :=
  ⟨rfl, (exclusive_resolved_as_publication demoAeron 8 3 "aeron:ipc" 1002).2.2.2.1 _ rfl⟩

/-- C18: `Aeron.Close` closes the conductor and then, in all cases, the CnC file; it calls the
error handler once for each step that failed, with that step's error, and in no other case;
and it returns the result of `cncFile.Close()`, so `nil` when only the conductor failed. -/
theorem Close_reports {σ Pub Sub Err : Type} (aeron : Aeron σ Pub Sub Err) :
    (Close aeron).1 = aeron.cncFileClose ∧
    (aeron.conductor.Close (aeron.state 0) = none → aeron.cncFileClose = none →
      Close aeron = (none, [Call.conductorClose, Call.cncFileClose])) ∧
    (∀ e, aeron.conductor.Close (aeron.state 0) = some e → aeron.cncFileClose = none →
      Close aeron = (none, [Call.conductorClose, Call.errorHandler e, Call.cncFileClose])) ∧
    (∀ e, aeron.conductor.Close (aeron.state 0) = none → aeron.cncFileClose = some e →
      Close aeron = (some e, [Call.conductorClose, Call.cncFileClose, Call.errorHandler e])) ∧
    (∀ e1 e2, aeron.conductor.Close (aeron.state 0) = some e1 → aeron.cncFileClose = some e2 →
      Close aeron = (some e2, [Call.conductorClose, Call.errorHandler e1, Call.cncFileClose,
        Call.errorHandler e2])) := by
  refine ⟨rfl, ?_, ?_, ?_, ?_⟩
  · intro h1 h2
    simp [Close, h1, h2, reportIf]
  · intro e h1 h2
    simp [Close, h1, h2, reportIf]
  · intro e h1 h2
    simp [Close, h1, h2, reportIf]
  · intro e1 e2 h1 h2
    simp [Close, h1, h2, reportIf]

theorem Close_reports_witness :
    Close demoAeron = (none, [Call.conductorClose, Call.errorHandler "conductor already closed",
      Call.cncFileClose]) :=
  (Close_reports demoAeron).2.2.1 "conductor already closed" rfl rfl

theorem deprecated_calls {Pub Sub Err : Type} (first probe send : Call Pub Sub Err)
    (addErr err : Option Err) (n : Nat)
    (hf : first.isOnError = false ∧ first.isSend = false)
    (hp : probe.isOnError = false ∧ probe.isSend = false)
    (hs : send.isOnError = false ∧ send.isSend = true) :
    (([first] ++ reportIf addErr Call.onError ++ spins probe n ++ [probe] ++
        reportIf err Call.onError ++ [send, Call.closeChannel]).filter Call.isOnError =
      reportIf addErr Call.onError ++ reportIf err Call.onError) ∧
    (([first] ++ reportIf addErr Call.onError ++ spins probe n ++ [probe] ++
        reportIf err Call.onError ++ [send, Call.closeChannel]).filter Call.isSend = [send]) ∧
    ([first] ++ reportIf addErr Call.onError ++ spins probe n ++ [probe] ++
        reportIf err Call.onError ++ [send, Call.closeChannel]).getLast? =
      some Call.closeChannel := by
  have h1 : ∀ e : Option Err,
      (reportIf e Call.onError : List (Call Pub Sub Err)).filter Call.isOnError =
        reportIf e Call.onError := by
    intro e
    cases e <;> rfl
  have h2 : ∀ e : Option Err,
      (reportIf e Call.onError : List (Call Pub Sub Err)).filter Call.isSend = [] := by
    intro e
    cases e <;> rfl
  have hc1 : (Call.closeChannel : Call Pub Sub Err).isOnError = false := rfl
  have hc2 : (Call.closeChannel : Call Pub Sub Err).isSend = false := rfl
  refine ⟨?_, ?_, ?_⟩
  · simp only [List.filter_append, h1, filter_spins Call.isOnError probe hp.1 rfl n]
    simp [List.filter_cons, hf.1, hp.1, hs.1, hc1]
  · simp only [List.filter_append, h2, filter_spins Call.isSend probe hp.2 rfl n]
    simp [List.filter_cons, hf.2, hp.2, hs.2, hc2]
  · have e : [first] ++ reportIf addErr Call.onError ++ spins probe n ++ [probe] ++
        reportIf err Call.onError ++ [send, Call.closeChannel] =
        ([first] ++ reportIf addErr Call.onError ++ spins probe n ++ [probe] ++
          reportIf err Call.onError ++ [send]) ++ [Call.closeChannel] := by
      simp
    rw [e, List.getLast?_concat]

/-- C19: in `AddPublicationDeprecated`, `AddSubscriptionDeprecated` and
`AddExclusivePublicationDeprecated`, whatever the add call returns (`addErr` may be an
error), the probes run with the registration id it returned; when they resolve after `n`
pending rounds to `(obj, err)`, the calls are: the add call, `onError(addErr)` if the add
failed, the `n` rounds and the last probe, `onError(err)` if the probe failed, the send of
`obj` (which is `nil` for an error result `(nil, err)`), and the close of the channel.  So
`onError` is called for the add failure and again for the probe failure, twice when both
fail; exactly one value is sent; and the last call closes the channel. -/
theorem deprecated_add_reports {σ Pub Sub Err : Type} (aeron : Aeron σ Pub Sub Err)
    (n fuel : Nat) (channel : String) (streamID : Int) (hfuel : n < fuel) :
    (∀ (id : Int) (addErr : Option Err) (obj : Option Pub) (err : Option Err),
      aeron.conductor.AddPublication (aeron.state 0) channel streamID = (id, addErr) →
      ResolvesAfter (fun k => aeron.conductor.FindPublication (aeron.state (k + 1)) id)
        n obj err →
      ∃ calls, AddPublicationDeprecated aeron fuel channel streamID = some calls ∧
        calls = [Call.addPublication channel streamID] ++ reportIf addErr Call.onError ++
          spins (Call.findPublication id) n ++ [Call.findPublication id] ++
          reportIf err Call.onError ++ [Call.sendPublication obj, Call.closeChannel] ∧
        calls.filter Call.isOnError = reportIf addErr Call.onError ++ reportIf err Call.onError ∧
        calls.filter Call.isSend = [Call.sendPublication obj] ∧
        calls.getLast? = some Call.closeChannel) ∧
    (∀ (id : Int) (addErr : Option Err) (obj : Option Sub) (err : Option Err),
      aeron.conductor.AddSubscription (aeron.state 0) channel streamID = (id, addErr) →
      ResolvesAfter (fun k => aeron.conductor.FindSubscription (aeron.state (k + 1)) id)
        n obj err →
      ∃ calls, AddSubscriptionDeprecated aeron fuel channel streamID = some calls ∧
        calls = [Call.addSubscription channel streamID] ++ reportIf addErr Call.onError ++
          spins (Call.findSubscription id) n ++ [Call.findSubscription id] ++
          reportIf err Call.onError ++ [Call.sendSubscription obj, Call.closeChannel] ∧
        calls.filter Call.isOnError = reportIf addErr Call.onError ++ reportIf err Call.onError ∧
        calls.filter Call.isSend = [Call.sendSubscription obj] ∧
        calls.getLast? = some Call.closeChannel) ∧
    (∀ (id : Int) (addErr : Option Err) (obj : Option Pub) (err : Option Err),
      aeron.conductor.AddExclusivePublication (aeron.state 0) channel streamID = (id, addErr) →
      ResolvesAfter (fun k => aeron.conductor.FindPublication (aeron.state (k + 1)) id)
        n obj err →
      ∃ calls, AddExclusivePublicationDeprecated aeron fuel channel streamID = some calls ∧
        calls = [Call.addExclusivePublication channel streamID] ++
          reportIf addErr Call.onError ++
          spins (Call.findPublication id) n ++ [Call.findPublication id] ++
          reportIf err Call.onError ++ [Call.sendPublication obj, Call.closeChannel] ∧
        calls.filter Call.isOnError = reportIf addErr Call.onError ++ reportIf err Call.onError ∧
        calls.filter Call.isSend = [Call.sendPublication obj] ∧
        calls.getLast? = some Call.closeChannel) ∧
    (∀ e1 e2 : Err, (reportIf (some e1) Call.onError ++ reportIf (some e2) Call.onError :
      List (Call Pub Sub Err)) = [Call.onError e1, Call.onError e2]) := by
  refine ⟨?_, ?_, ?_, fun _ _ => rfl⟩
  · intro id addErr obj err hadd hres
    have hs := deprecated_calls (Call.addPublication channel streamID)
      (Call.findPublication id) (Call.sendPublication obj : Call Pub Sub Err) addErr err n
      ⟨rfl, rfl⟩ ⟨rfl, rfl⟩ ⟨rfl, rfl⟩
    refine ⟨_, ?_, rfl, hs⟩
    unfold AddPublicationDeprecated
    simp only [hadd]
    rw [awaitFind_resolves _ _ n fuel _ obj err hfuel hres]
  · intro id addErr obj err hadd hres
    have hs := deprecated_calls (Call.addSubscription channel streamID)
      (Call.findSubscription id) (Call.sendSubscription obj : Call Pub Sub Err) addErr err n
      ⟨rfl, rfl⟩ ⟨rfl, rfl⟩ ⟨rfl, rfl⟩
    refine ⟨_, ?_, rfl, hs⟩
    unfold AddSubscriptionDeprecated
    simp only [hadd]
    rw [awaitFind_resolves _ _ n fuel _ obj err hfuel hres]
  · intro id addErr obj err hadd hres
    have hs := deprecated_calls (Call.addExclusivePublication channel streamID)
      (Call.findPublication id) (Call.sendPublication obj : Call Pub Sub Err) addErr err n
      ⟨rfl, rfl⟩ ⟨rfl, rfl⟩ ⟨rfl, rfl⟩
    refine ⟨_, ?_, rfl, hs⟩
    unfold AddExclusivePublicationDeprecated
    simp only [hadd]
    rw [awaitFind_resolves _ _ n fuel _ obj err hfuel hres]

theorem demoAeron_fails :
    ResolvesAfter (fun k => demoAeron.conductor.FindSubscription (demoAeron.state (k + 1)) 0)
      2 none (some "unknown registration") := by
  refine ⟨?_, ?_, Or.inr rfl⟩
  · intro j hj
    have : j + 1 < 3 := by omega
    simp [demoAeron, demoConductor, this]
  · simp [demoAeron, demoConductor]

theorem deprecated_add_reports_witness :
    2 < 3 ∧ ∃ calls, AddSubscriptionDeprecated demoAeron 3 "" 1002 = some calls ∧
      calls = [Call.addSubscription "" 1002] ++
        reportIf (some "invalid channel") Call.onError ++
        spins (Call.findSubscription 0) 2 ++ [Call.findSubscription 0] ++
        reportIf (some "unknown registration") Call.onError ++
        [Call.sendSubscription none, Call.closeChannel] ∧
      calls.filter Call.isOnError =
        reportIf (some "invalid channel") Call.onError ++
          reportIf (some "unknown registration") Call.onError ∧
      calls.filter Call.isSend = [Call.sendSubscription none] ∧
      calls.getLast? = some Call.closeChannel :=
  ⟨by decide, (deprecated_add_reports demoAeron 2 3 "" 1002 (by decide)).2.1 0
    (some "invalid channel") none (some "unknown registration") rfl demoAeron_fails⟩


/-! ## `Subscription.Poll` -/

theorem pollImages_sum (fragmentLimit : Int) :
    ∀ (ics : List ((Int → Int) × Int)) (fragmentsRead : Int),
      (∀ p ∈ ics, 0 ≤ p.2 ∧ ∀ l, p.2 ≤ l → p.1 l = p.2) →
      fragmentsRead + (ics.map Prod.snd).sum ≤ fragmentLimit →
      pollImages (ics.map Prod.fst) fragmentLimit fragmentsRead =
        fragmentsRead + (ics.map Prod.snd).sum := by
  intro ics
  induction ics with
  | nil =>
    intro fragmentsRead _ _
    simp [pollImages]
  | cons p rest ih =>
    intro fragmentsRead hret hsum
    have hp := hret p (List.mem_cons_self _ _)
    have hrest : ∀ q ∈ rest, 0 ≤ q.2 ∧ ∀ l, q.2 ≤ l → q.1 l = q.2 :=
      fun q hq => hret q (List.mem_cons_of_mem _ hq)
    have hnn : 0 ≤ (rest.map Prod.snd).sum := by
      apply List.sum_nonneg
      intro x hx
      obtain ⟨q, hq, rfl⟩ := List.mem_map.mp hx
      exact (hrest q hq).1
    simp only [List.map_cons, List.sum_cons] at hsum ⊢
    rw [pollImages, hp.2 _ (by omega), ih _ hrest (by omega)]
    omega

/-- C14: a subscription whose images return the counts `c` (each count non-negative and
returned whenever the limit offered to the image is at least the count) returns from `Poll`
the sum of the counts, as long as the sum is within the fragment limit, whatever the
round-robin index; in particular `Poll` returns 0 without images, 0 when the only image
returns 0, and 2 when two images each return 1 and the limit is at least 2. -/
theorem Poll_sums (ics : List ((Int → Int) × Int)) (roundRobinIndex : Nat) (fragmentLimit : Int)
    (hret : ∀ p ∈ ics, 0 ≤ p.2 ∧ ∀ l, p.2 ≤ l → p.1 l = p.2)
    (hsum : (ics.map Prod.snd).sum ≤ fragmentLimit) :
    (Subscription.Poll ⟨ics.map Prod.fst, roundRobinIndex⟩ fragmentLimit).1 =
      (ics.map Prod.snd).sum ∧
    (∀ (r : Nat) (l : Int), (Subscription.Poll ⟨[], r⟩ l).1 = 0) ∧
    (∀ (image : Int → Int) (r : Nat) (l : Int), image l = 0 →
      (Subscription.Poll ⟨[image], r⟩ l).1 = 0) ∧
    (∀ (one two : Int → Int) (r : Nat) (l : Int), (∀ x, one x = 1) → (∀ x, two x = 1) →
      2 ≤ l → (Subscription.Poll ⟨[one, two], r⟩ l).1 = 2) := by
  have main : ∀ (ics : List ((Int → Int) × Int)) (r : Nat) (l : Int),
      (∀ p ∈ ics, 0 ≤ p.2 ∧ ∀ l, p.2 ≤ l → p.1 l = p.2) → (ics.map Prod.snd).sum ≤ l →
      (Subscription.Poll ⟨ics.map Prod.fst, r⟩ l).1 = (ics.map Prod.snd).sum := by
    intro ics r l hret hsum
    have hperm : ((ics.rotate r).map Prod.snd).sum = (ics.map Prod.snd).sum :=
      ((List.rotate_perm ics r).map Prod.snd).sum_eq
    simp only [Subscription.Poll]
    rw [← List.map_rotate, pollImages_sum l (ics.rotate r) 0
      (fun p hp => hret p (List.mem_rotate.mp hp)) (by rw [hperm]; omega), hperm]
    omega
  refine ⟨main ics roundRobinIndex fragmentLimit hret hsum, ?_, ?_, ?_⟩
  · intro r l
    simp [Subscription.Poll, pollImages]
  · intro image r l h0
    simp [Subscription.Poll, pollImages, h0]
  · intro one two r l h1 h2 hl
    have := main [(one, 1), (two, 1)] r l
      (by
        intro p hp
        simp only [List.mem_cons, List.mem_singleton, List.not_mem_nil, or_false] at hp
        rcases hp with rfl | rfl
        · exact ⟨Int.one_nonneg, fun x _ => h1 x⟩
        · exact ⟨Int.one_nonneg, fun x _ => h2 x⟩)
      (by simpa using hl)
    simpa using this

theorem Poll_sums_witness :
    (∀ p ∈ [((fun _ => 1 : Int → Int), (1 : Int)), ((fun l => min 3 l : Int → Int), 3)],
      0 ≤ p.2 ∧ ∀ l, p.2 ≤ l → p.1 l = p.2) ∧
    (([((fun _ => 1 : Int → Int), (1 : Int)), ((fun l => min 3 l : Int → Int), 3)].map
      Prod.snd).sum ≤ 10) ∧
    (Subscription.Poll ⟨[((fun _ => 1 : Int → Int), (1 : Int)),
        ((fun l => min 3 l : Int → Int), 3)].map Prod.fst, 1⟩ 10).1 =
      ([((fun _ => 1 : Int → Int), (1 : Int)), ((fun l => min 3 l : Int → Int), 3)].map
        Prod.snd).sum :=
  have hret : ∀ p ∈ [((fun _ => 1 : Int → Int), (1 : Int)), ((fun l => min 3 l : Int → Int), 3)],
      0 ≤ p.2 ∧ ∀ l, p.2 ≤ l → p.1 l = p.2 := by
    intro p hp
    simp only [List.mem_cons, List.mem_singleton, List.not_mem_nil, or_false] at hp
    rcases hp with rfl | rfl
    · exact ⟨by decide, fun _ _ => rfl⟩
    · exact ⟨by decide, fun l hl => min_eq_left hl⟩
  ⟨hret, by decide, (Poll_sums _ 1 10 hret (by decide)).1⟩

end Aeron.Client

namespace Cluster

/-! ## `snapshotTaker.offer` -/

theorem retries_succ (bytes : List Nat) (n : Nat) :
    retries bytes (n + 1) = [Call.offer bytes, Call.idle 0] ++ retries bytes n := rfl

theorem retries_snoc (bytes : List Nat) (n : Nat) :
    retries bytes (n + 1) = retries bytes n ++ [Call.offer bytes, Call.idle 0] := by
  induction n with
  | zero => rfl
  | succ n ih =>
    calc retries bytes (n + 1 + 1)
        = [Call.offer bytes, Call.idle 0] ++ retries bytes (n + 1) := rfl
      _ = [Call.offer bytes, Call.idle 0] ++ (retries bytes n ++ [Call.offer bytes, Call.idle 0]) := by
          rw [ih]
      _ = ([Call.offer bytes, Call.idle 0] ++ retries bytes n) ++ [Call.offer bytes, Call.idle 0] := by
          rw [List.append_assoc]
      _ = retries bytes (n + 1) ++ [Call.offer bytes, Call.idle 0] := rfl

theorem offerLoop_retries (st : snapshotTaker) (bytes : List Nat) :
    ∀ (n fuel k : Nat) (ret : Int) (calls : List Call), n ≤ fuel →
      (∀ j, j < n → (st.since (k + j) : Int) < st.Timeout) →
      (∀ j, j < n → retryOn (st.Offer (k + j) bytes) = true) →
      offerLoop st bytes fuel k ret calls =
        offerLoop st bytes (fuel - n) (k + n)
          (if n = 0 then ret else st.Offer (k + n - 1) bytes) (calls ++ retries bytes n) := by
  intro n
  induction n with
  | zero =>
    intro fuel k ret calls _ _ _
    simp [retries]
  | succ n ih =>
    intro fuel k ret calls hfuel htime hret
    rw [ih fuel k ret calls (by omega) (fun j hj => htime j (by omega))
      (fun j hj => hret j (by omega))]
    obtain ⟨f, hf⟩ : ∃ f, fuel - n = f + 1 := ⟨fuel - n - 1, by omega⟩
    have e1 : fuel - (n + 1) = f := by omega
    rw [hf, offerLoop, if_pos (htime n (by omega)), if_pos (hret n (by omega)), e1,
      retries_snoc, List.append_assoc]
    rfl

/-- C16: if the first `n` rounds of `snapshotTaker.offer` each find time left and get a
result among `NotConnected`, `BackPressured`, `AdminAction`, the calls so far are `n` times
an `Offer` followed by `Idle(0)`; if round `n` then finds time left and gets another result,
that result is returned right after its `Offer`; if round `n` finds the timeout elapsed and
`n > 0`, the result of the last `Offer` is returned with no further call.  A position,
`Closed` and `MaxPositionExceeded` are not retried. -/
theorem offer_retries_only_transient (st : snapshotTaker) (bytes : List Nat) (n fuel : Nat)
    (hfuel : n < fuel)
    (htime : ∀ j, j < n → (st.since j : Int) < st.Timeout)
    (hret : ∀ j, j < n → st.Offer j bytes = NotConnected ∨ st.Offer j bytes = BackPressured ∨
      st.Offer j bytes = AdminAction) :
    ((st.since n : Int) < st.Timeout →
      ¬ (st.Offer n bytes = NotConnected ∨ st.Offer n bytes = BackPressured ∨
        st.Offer n bytes = AdminAction) →
      offer st fuel bytes = some (st.Offer n bytes, retries bytes n ++ [Call.offer bytes])) ∧
    (¬ (st.since n : Int) < st.Timeout → 0 < n →
      offer st fuel bytes = some (st.Offer (n - 1) bytes, retries bytes n)) ∧
    (retryOn Closed = false ∧ retryOn MaxPositionExceeded = false ∧
      ∀ position : Int, 0 ≤ position → retryOn position = false) := by
  have hiff : ∀ r : Int, retryOn r = true ↔
      (r = NotConnected ∨ r = BackPressured ∨ r = AdminAction) := by
    intro r
    simp [retryOn, or_assoc]
  have hstep := offerLoop_retries st bytes n fuel 0 0 [] (by omega)
    (fun j hj => by rw [Nat.zero_add]; exact htime j hj)
    (fun j hj => by rw [Nat.zero_add]; exact (hiff _).mpr (hret j hj))
  obtain ⟨f, hf⟩ : ∃ f, fuel - n = f + 1 := ⟨fuel - n - 1, by omega⟩
  simp only [Nat.zero_add, List.nil_append] at hstep
  refine ⟨?_, ?_, ?_⟩
  · intro ht hnr
    have hnr2 : ¬ retryOn (st.Offer n bytes) = true := fun h => hnr ((hiff _).mp h)
    unfold offer
    rw [hstep, hf, offerLoop, if_pos ht, if_neg hnr2]
  · intro ht hn
    unfold offer
    rw [hstep, hf, offerLoop, if_neg ht, if_neg (by omega)]
  · refine ⟨by decide, by decide, ?_⟩
    intro position hp
    have : ¬ (position = NotConnected ∨ position = BackPressured ∨ position = AdminAction) := by
      unfold NotConnected BackPressured AdminAction
      omega
    cases h : retryOn position with
    | false => rfl
    | true => exact absurd ((hiff _).mp h) this

theorem offer_retries_only_transient_witness :
    2 < 3 ∧ offer demoTaker 3 [1, 2, 3] =
      some (64, retries [1, 2, 3] 2 ++ [Call.offer [1, 2, 3]]) :=
  ⟨by decide, (offer_retries_only_transient demoTaker [1, 2, 3] 2 3 (by decide)
    (by intro j hj; simp only [demoTaker]; omega)
    (by
      intro j hj
      have : j < 2 := hj
      simp [demoTaker, this])).1 (by decide) (by decide)⟩

/-- C17 fails on the code at `Options.Timeout = 0`: the loop condition of `offer` is false
at its first evaluation, so `offer` returns its zero-initialised `ret` without any `Offer`
call, and `markSnapshot` and `snapshotSession` return `nil` although nothing was offered. -/
theorem markSnapshot_nil_without_offer {Err : Type} (since : Nat → Nat)
    (Offer : Nat → List Nat → Int) (fuel : Nat) (bytes : List Nat) :
    offer ⟨0, since, Offer⟩ (fuel + 1) bytes = some (0, []) ∧
    markSnapshot ⟨0, since, Offer⟩ (fuel + 1) (Except.ok bytes : Except Err (List Nat)) =
      some (none, []) ∧
    snapshotSession ⟨0, since, Offer⟩ (fuel + 1) (Except.ok bytes : Except Err (List Nat)) =
      some (none, []) := by
  have h : offer ⟨0, since, Offer⟩ (fuel + 1) bytes = some (0, []) := by
    unfold offer
    rw [offerLoop, if_neg]
    simp
  refine ⟨h, ?_, ?_⟩
  · simp [markSnapshot, h]
  · simp [snapshotSession, h]

end Cluster

namespace Cluster.Codecs

/-! ## `MakeClusterMessageBuffer` -/

/-- C20 fails on the code at `blockLength = 65535`: `8+blockLength` wraps in `uint16` to a
capacity of 7, below the 8 bytes of the header, and the write of the schema version at
offset 6 fails its bounds check, for every `templateId`. -/
theorem MakeClusterMessageBuffer_wraps (templateId : Nat) :
    MakeClusterMessageBuffer_capacity 65535 = 7 ∧
    MakeClusterMessageBuffer templateId 65535 = none := by
  refine ⟨by decide, ?_⟩
  have hc : MakeClusterMessageBuffer_capacity 65535 = 7 := by decide
  simp [MakeClusterMessageBuffer, hc, PutUInt16]

end Cluster.Codecs

namespace Aeron.Util

/-! ## `NumberOfTrailingZeroes` against the bit counts -/

theorem countTrailingZeros_eq :
    ∀ (r bits value : Nat), r < bits → 2 ^ r ∣ value → ¬ 2 ^ (r + 1) ∣ value →
      countTrailingZeros bits value = r := by
  intro r
  induction r with
  | zero =>
    intro bits value hb _ hnd
    obtain ⟨b, rfl⟩ : ∃ b, bits = b + 1 := ⟨bits - 1, by omega⟩
    have hodd : value % 2 = 1 := by
      have : ¬ 2 ∣ value := by simpa using hnd
      omega
    rw [countTrailingZeros, if_pos hodd]
  | succ r ih =>
    intro bits value hb hd hnd
    obtain ⟨b, rfl⟩ : ∃ b, bits = b + 1 := ⟨bits - 1, by omega⟩
    obtain ⟨c, hc⟩ := hd
    have hval : value = 2 * (2 ^ r * c) := by rw [hc, pow_succ]; ring
    have heven : ¬ value % 2 = 1 := by omega
    have hhalf : value / 2 = 2 ^ r * c := by omega
    rw [countTrailingZeros, if_neg heven, hhalf,
      ih b (2 ^ r * c) (by omega) (Dvd.intro _ rfl) ?_]
    rintro ⟨d, hd⟩
    apply hnd
    refine ⟨d, ?_⟩
    rw [hval, hd, pow_succ 2 (r + 1)]
    ring

/-- C15 (as amended): for every `uint32` value, `NumberOfTrailingZeroes(value)` returns the
number of trailing zero bits of the 32-bit integer `value`, which is 32 for `0`. -/
theorem NumberOfTrailingZeroes_counts_trailing (value : Nat) (hv : value < 2 ^ 32) :
    NumberOfTrailingZeroes value = some (countTrailingZeros 32 value) := by
  by_cases h0 : value = 0
  · rw [h0]
    decide
  · obtain ⟨r, hr, hntz, hd, hnd⟩ := NumberOfTrailingZeroes_nonzero value hv h0
    rw [hntz, countTrailingZeros_eq r 32 value (by omega) hd hnd]

theorem NumberOfTrailingZeroes_counts_trailing_witness :
    (48 : Nat) < 2 ^ 32 ∧ NumberOfTrailingZeroes 48 = some (countTrailingZeros 32 48) :=
  ⟨by decide, NumberOfTrailingZeroes_counts_trailing 48 (by decide)⟩

/-- C15 (as stated) fails: for the value 1 the code returns 0, while the 32-bit integer 1 has
31 leading zeros. -/
theorem NumberOfTrailingZeroes_not_leading :
    NumberOfTrailingZeroes 1 = some 0 ∧ countLeadingZeros 32 1 = 31 ∧
      ¬ (∀ value : Nat, value < 2 ^ 32 →
        NumberOfTrailingZeroes value = some (countLeadingZeros 32 value)) := by
  refine ⟨by decide, by decide, fun h => ?_⟩
  have h1 := h 1 (by decide)
  revert h1
  decide

/-! ## The batches of `Memcpy` -/

theorem Memcpy_loop8_step (src : Nat → Nat) (i8 : Int) (d : Nat → Nat) (i : Nat)
    (acc : List (Nat × Nat)) (h : (i : Int) < i8) :
    Memcpy_loop8 src i8 { dest := d, i := i, accesses := acc } =
      Memcpy_loop8 src i8
        { dest := fun j => if i ≤ j ∧ j < i + 8 then src j else d j
          i := i + 8
          accesses := (i, 8) :: acc } := by
  rw [Memcpy_loop8, if_pos h]
  rfl

theorem Memcpy_loop8_done (src : Nat → Nat) (i8 : Int) (d : Nat → Nat) (i : Nat)
    (acc : List (Nat × Nat)) (h : ¬ (i : Int) < i8) :
    Memcpy_loop8 src i8 { dest := d, i := i, accesses := acc } =
      { dest := d, i := i, accesses := acc } := by
  rw [Memcpy_loop8, if_neg h]

theorem Memcpy_loop4_step (src : Nat → Nat) (i4 : Int) (d : Nat → Nat) (i : Nat)
    (acc : List (Nat × Nat)) (h : (i : Int) < i4) :
    Memcpy_loop4 src i4 { dest := d, i := i, accesses := acc } =
      Memcpy_loop4 src i4
        { dest := fun j => if i ≤ j ∧ j < i + 4 then src j else d j
          i := i + 4
          accesses := (i, 4) :: acc } := by
  rw [Memcpy_loop4, if_pos h]
  rfl

theorem Memcpy_loop4_done (src : Nat → Nat) (i4 : Int) (d : Nat → Nat) (i : Nat)
    (acc : List (Nat × Nat)) (h : ¬ (i : Int) < i4) :
    Memcpy_loop4 src i4 { dest := d, i := i, accesses := acc } =
      { dest := d, i := i, accesses := acc } := by
  rw [Memcpy_loop4, if_neg h]

theorem Memcpy_after8_102 (dest src : Nat → Nat) :
    (Memcpy_after8 dest src 102).i = 16 ∧
      (Memcpy_after8 dest src 102).accesses = [(8, 8), (0, 8)] := by
  unfold Memcpy_after8
  rw [Memcpy_loop8_step _ _ _ 0 _ (by decide), Memcpy_loop8_step _ _ _ (0 + 8) _ (by decide),
    Memcpy_loop8_done _ _ _ (0 + 8 + 8) _ (by decide)]
  exact ⟨rfl, rfl⟩

theorem Memcpy_after4_102 (dest src : Nat → Nat) :
    (Memcpy_after4 dest src 102).i = 24 ∧
      (Memcpy_after4 dest src 102).accesses = [(20, 4), (16, 4), (8, 8), (0, 8)] := by
  unfold Memcpy_after4 Memcpy_after8
  rw [Memcpy_loop8_step _ _ _ 0 _ (by decide), Memcpy_loop8_step _ _ _ (0 + 8) _ (by decide),
    Memcpy_loop8_done _ _ _ (0 + 8 + 8) _ (by decide)]
  simp only
  rw [Memcpy_loop4_step _ _ _ (0 + 8 + 8) _ (by decide),
    Memcpy_loop4_step _ _ _ (0 + 8 + 8 + 4) _ (by decide),
    Memcpy_loop4_done _ _ _ (0 + 8 + 8 + 4 + 4) _ (by decide)]
  exact ⟨rfl, rfl⟩

theorem Memcpy_loop1_bytewise (src : Nat → Nat) (length : Int) :
    ∀ (n : Nat) (st : CopyState), (length - st.i).toNat = n →
      ((Memcpy_loop1 src length st).accesses.filter (fun a => a.2 == 1)).length =
        (st.accesses.filter (fun a => a.2 == 1)).length + n := by
  intro n
  induction n with
  | zero =>
    intro st hn
    rw [Memcpy_loop1, if_neg (by omega)]
    rfl
  | succ n ih =>
    intro st hn
    rw [Memcpy_loop1, if_pos (by omega), ih _ (by simp only [copyWord]; omega)]
    simp [copyWord, List.filter_cons]
    omega

/-- C21 fails on the code at `length = 102`, the length of its own test: the 8-byte batch
loop ends at `i = 16` with 86 bytes left, the 4-byte batch loop ends at `i = 24` with 78
bytes left, and the remainder loop copies these 78 bytes one at a time, not at most 3. -/
theorem Memcpy_batches_stop_early (dest src : Nat → Nat) :
    (Memcpy_after8 dest src 102).i = 16 ∧ 102 - ((Memcpy_after8 dest src 102).i : Int) = 86 ∧
    (Memcpy_after4 dest src 102).i = 24 ∧ 102 - ((Memcpy_after4 dest src 102).i : Int) = 78 ∧
    Memcpy_bytewise dest src 102 = 78 ∧
    ¬ (∀ length : Int, 0 ≤ length → isInt32 length →
      length - ((Memcpy_after8 dest src length).i : Int) < 8 ∧
      length - ((Memcpy_after4 dest src length).i : Int) < 4 ∧
      Memcpy_bytewise dest src length ≤ 3) := by
  have h8 := Memcpy_after8_102 dest src
  have h4 := Memcpy_after4_102 dest src
  have hb : Memcpy_bytewise dest src 102 = 78 := by
    unfold Memcpy_bytewise Memcpy
    rw [Memcpy_loop1_bytewise src 102 78 _ (by rw [h4.1]; rfl), h4.2]
    rfl
  refine ⟨h8.1, by rw [h8.1]; rfl, h4.1, by rw [h4.1]; rfl, hb, fun h => ?_⟩
  have := (h 102 (by decide) (by unfold isInt32; decide)).2.2
  rw [hb] at this
  omega

end Aeron.Util
